import Mathlib

/-!
# OnionScan: the crawl database and the onion address validator

A shallow embedding of `crawldb/crawldb.go` and `utils/validation.go`.

Modelling conventions.

* The connection to the SQL store never breaks, string comparison in a `WHERE`
  clause is equality of strings and a column keeps its value unless a statement
  sets it.  A statement that would store a value longer than its column
  (`VARCHAR(255)`, `TEXT`) fails and changes nothing, and `Exec` returns the
  error.  A table is the list of its rows in store order (insertion order);
  `AUTO_INCREMENT` hands out the next unused positive integer.
* Instants are integers counted in the resolution of a `TIMESTAMP` column.
  `time.Now()` reads a clock: the world carries the sequence of readings and the
  index of the next one, and every `time.Now()` of the source consumes one
  reading.
* `database/sql` hands a `TIMESTAMP` column to `Scan` either as text in the form
  `2006-01-02 15:04:05` (the driver default) or as a `time.Time` (when the data
  source name given to `NewDB` sets `parseTime=true`).  The kind of every
  destination passed to `Scan` is part of the model, since `Scan` fails on a
  destination that is not a pointer or that cannot hold the value.
* `model.Page` and its JSON encoding are parameters (`Codec`).
* `IsOnion` inspects bytes, so there a Go string is the list of its bytes.  The
  regular expression has only ASCII atoms, so matching bytes and matching runes
  agree.
-/

namespace OnionScan

/-! ## Errors, connection options, `Scan` -/

/-- Errors the embedded code can return. -/
inductive Error where
  | errNoRows
  | destinationNotPointer
  | unsupportedScan
  | scanArity
  | timeParse
  | codec
  | dataTooLong
  deriving DecidableEq, Repr

/-- Options of the data source name given to `NewDB` on which the code depends. -/
structure Conn where
  parseTime : Bool
  clientFoundRows : Bool
  deriving DecidableEq, Repr

/-- Contents of a string or byte slice read from the store. -/
inductive Text where
  /-- ordinary text -/
  | str (s : String)
  /-- the instant `t` written as `2006-01-02 15:04:05` -/
  | sqlTime (t : Int)
  /-- the instant `t` written in `time.RFC3339Nano` -/
  | rfc3339 (t : Int)
  deriving DecidableEq, Repr

/-- Number of bytes of a text: the two renderings of an instant are never empty. -/
def Text.len : Text → Nat
  | .str s => s.utf8ByteSize
  | .sqlTime _ => 19
  | .rfc3339 _ => 20

/-- A column value as the driver hands it to `database/sql` (`driver.Value`). -/
inductive Value where
  | int (n : Nat)
  | bytes (x : Text)
  | time (t : Int)
  deriving DecidableEq, Repr

/-- The kind of a destination argument of `Scan`.  `stringVal` is a `string`
passed by value, every other kind is a pointer. -/
inductive Dest where
  | intPtr
  | stringPtr
  | bytesPtr
  | timePtr
  | stringVal
  deriving DecidableEq, Repr

/-- What `Scan` stored through a destination. -/
inductive Cell where
  | int (n : Nat)
  | text (x : Text)
  | time (t : Int)
  deriving DecidableEq, Repr

/-- The conversion `database/sql` applies to one column (`convertAssign`): a
destination that is not a pointer is refused, byte slices go to `*string` and
`*[]byte`, a `time.Time` goes to `*time.Time` or, formatted in RFC3339Nano, to
`*string` and `*[]byte`; a byte slice cannot be stored into a `*time.Time`. -/
def convertAssign : Dest → Value → Except Error Cell
  | .stringVal, _ => .error .destinationNotPointer
  | .intPtr, .int n => .ok (.int n)
  | .intPtr, .bytes (.str s) =>
      match s.toNat? with
      | some n => .ok (.int n)
      | none => .error .unsupportedScan
  | .intPtr, _ => .error .unsupportedScan
  | .stringPtr, .int n => .ok (.text (.str (toString n)))
  | .stringPtr, .bytes x => .ok (.text x)
  | .stringPtr, .time t => .ok (.text (.rfc3339 t))
  | .bytesPtr, .int n => .ok (.text (.str (toString n)))
  | .bytesPtr, .bytes x => .ok (.text x)
  | .bytesPtr, .time t => .ok (.text (.rfc3339 t))
  | .timePtr, .time t => .ok (.time t)
  | .timePtr, _ => .error .unsupportedScan

/-- Column by column conversion, stopping at the first error. -/
def scanColumns : List Dest → List Value → Except Error (List Cell)
  | d :: ds, v :: vs =>
      match convertAssign d v with
      | .error e => .error e
      | .ok c =>
          match scanColumns ds vs with
          | .error e => .error e
          | .ok cs => .ok (c :: cs)
  | _, _ => .ok []

/-- The method `Rows.Scan`: the number of destinations must be the number of
columns, then the columns are converted in order. -/
def scan (dests : List Dest) (cols : List Value) : Except Error (List Cell) :=
  if dests.length = cols.length then scanColumns dests cols else .error .scanArity

/-- The call `time.Parse("2006-01-02 15:04:05", s)`: only text in that form
parses.  Ordinary text is never passed to it by this program. -/
def timeParse : Text → Except Error Int
  | .sqlTime t => .ok t
  | _ => .error .timeParse

/-- The zero `time.Time` (January 1, year 1, UTC) in seconds of the Unix era. -/
def zeroTime : Int := -62135596800

/-- How the driver delivers a `TIMESTAMP` column. -/
def timeValue (c : Conn) (t : Int) : Value :=
  if c.parseTime then .time t else .bytes (.sqlTime t)

/-! ## Tables and the world -/

/-- A row of table `crawls`; `Page` holds the JSON text. -/
structure CrawlRow where
  ID : Nat
  URL : String
  Timestamp : Int
  Page : String
  deriving DecidableEq, Repr

/-- The Go struct `Relationship`, also a row of table `relationships`
(`Type_` is the field `Type`, `From` the column `FromValue`). -/
structure Relationship where
  ID : Nat
  Onion : String
  From : String
  Type_ : String
  Identifier : String
  FirstSeen : Int
  LastSeen : Int
  deriving DecidableEq, Repr

/-- The database behind a `CrawlDB` together with the clock read by `time.Now()`. -/
structure World where
  crawls : List CrawlRow
  crawlsNext : Nat
  relationships : List Relationship
  relationshipsNext : Nat
  clock : Nat → Int
  tick : Nat

/-- The database right after `NewDB` created the tables: both are empty and the
first identifier handed out is 1. -/
def World.empty (clock : Nat → Int) : World :=
  { crawls := [], crawlsNext := 1, relationships := [], relationshipsNext := 1,
    clock := clock, tick := 0 }

/-- The call `time.Now()`: the current reading. -/
def World.now (w : World) : Int := w.clock w.tick

/-- The world after one `time.Now()`. -/
def World.advance (w : World) : World := { w with tick := w.tick + 1 }

/-- The primary key of `relationships`: identifiers are pairwise distinct and
smaller than the next `AUTO_INCREMENT` value. -/
def World.WF (w : World) : Prop :=
  (w.relationships.map (·.ID)).Nodup ∧ ∀ r ∈ w.relationships, r.ID < w.relationshipsNext

/-- A string fits a `VARCHAR(255)` column when it has at most 255 characters. -/
def fitsVarchar (s : String) : Bool := decide (s.length ≤ 255)

/-- A string fits a `TEXT` column when it has at most 65535 bytes. -/
def fitsText (s : String) : Bool := decide (s.utf8ByteSize ≤ 65535)

/-- The four string columns of `relationships` are `VARCHAR(255)`. -/
def fitsRelationship (onion frm typ identifier : String) : Bool :=
  fitsVarchar onion && fitsVarchar frm && fitsVarchar typ && fitsVarchar identifier

/-- A string of 256 letters `a`, one more than a `VARCHAR(255)` column holds. -/
def longOnion : String := String.mk (List.replicate 256 'a')

/-- The four fields that identify an observation. -/
def Relationship.hasTuple (r : Relationship) (onion frm typ identifier : String) : Bool :=
  r.Onion == onion && r.From == frm && r.Type_ == typ && r.Identifier == identifier

/-! ## Relationships -/

/-- Columns `ID, Onion, FromValue, Type, Identifier, FirstSeen, LastSeen` of a row. -/
def relationshipColumns (c : Conn) (r : Relationship) : List Value :=
  [.int r.ID, .bytes (.str r.Onion), .bytes (.str r.From), .bytes (.str r.Type_),
   .bytes (.str r.Identifier), timeValue c r.FirstSeen, timeValue c r.LastSeen]

/-- The guarded conversion of a scanned timestamp in `queryDB` and
`GetRelationshipsWithIdentifier`: empty bytes leave the zero time. -/
def parseSeen (x : Text) : Except Error Int :=
  if x.len > 0 then timeParse x else .ok zeroTime

/-- The loop body of `queryDB` and `GetRelationshipsWithIdentifier`: scan the
timestamps into byte slices, then parse them. -/
def scanRelationshipBytes (c : Conn) (r : Relationship) : Except Error Relationship :=
  match scan [.intPtr, .stringPtr, .stringPtr, .stringPtr, .stringPtr, .bytesPtr, .bytesPtr]
      (relationshipColumns c r) with
  | .error e => .error e
  | .ok [.int id, .text (.str o), .text (.str f), .text (.str t), .text (.str i),
         .text first, .text last] =>
      match parseSeen first with
      | .error e => .error e
      | .ok fs =>
          match parseSeen last with
          | .error e => .error e
          | .ok ls =>
              .ok { ID := id, Onion := o, From := f, Type_ := t, Identifier := i,
                    FirstSeen := fs, LastSeen := ls }
  | .ok _ => .error .unsupportedScan

/-- The loop body of `GetUserRelationshipFromOnion`: scan the timestamps
straight into the `time.Time` fields. -/
def scanRelationshipTime (c : Conn) (r : Relationship) : Except Error Relationship :=
  match scan [.intPtr, .stringPtr, .stringPtr, .stringPtr, .stringPtr, .timePtr, .timePtr]
      (relationshipColumns c r) with
  | .error e => .error e
  | .ok [.int id, .text (.str o), .text (.str f), .text (.str t), .text (.str i),
         .time fs, .time ls] =>
      .ok { ID := id, Onion := o, From := f, Type_ := t, Identifier := i,
            FirstSeen := fs, LastSeen := ls }
  | .ok _ => .error .unsupportedScan

/-- A `for rows.Next()` loop that returns at the first error. -/
def scanRows (f : Relationship → Except Error Relationship) :
    List Relationship → Except Error (List Relationship)
  | [] => .ok []
  | r :: rs =>
      match f r with
      | .error e => .error e
      | .ok x =>
          match scanRows f rs with
          | .error e => .error e
          | .ok xs => .ok (x :: xs)

/-- The function `queryDB`: whatever `field` is, the statement selects on
column `Onion`. -/
def queryDB (c : Conn) (w : World) (_field : String) (value : String) :
    Except Error (List Relationship) :=
  scanRows (scanRelationshipBytes c) (w.relationships.filter (fun r => r.Onion == value))

/-- The function `GetRelationshipsWithOnion`. -/
def GetRelationshipsWithOnion (c : Conn) (w : World) (onion : String) :
    Except Error (List Relationship) :=
  queryDB c w "Onion" onion

/-- The function `InsertNewRelationship`: the two timestamps are two readings of
the clock; the result is the new identifier, or the error of `Exec` when a field
does not fit its column, in which case no row is stored. -/
def InsertNewRelationship (onion frm identifierType identifier : String) (w : World) :
    Except Error Nat × World :=
  let firstSeen := w.now
  let lastSeen := w.advance.now
  let id := w.relationshipsNext
  if fitsRelationship onion frm identifierType identifier then
    (.ok id,
     { w with
       relationships := w.relationships ++
         [{ ID := id, Onion := onion, From := frm, Type_ := identifierType,
            Identifier := identifier, FirstSeen := firstSeen, LastSeen := lastSeen }]
       relationshipsNext := id + 1
       tick := w.tick + 2 })
  else (.error .dataTooLong, { w with tick := w.tick + 2 })

/-- The row an `UPDATE ... WHERE ID=?` of `UpdateRelationship` leaves for `r`. -/
def updateRow (id : Nat) (onion frm identifierType identifier : String) (now : Int)
    (r : Relationship) : Relationship :=
  if r.ID = id then
    { r with Onion := onion, From := frm, Type_ := identifierType,
             Identifier := identifier, LastSeen := now }
  else r

/-- The value of `RowsAffected`: the rows the statement changed, or the rows it
matched when the connection sets `clientFoundRows`. -/
def rowsAffected (c : Conn) (id : Nat) (old new : List Relationship) : Nat :=
  if c.clientFoundRows then (old.filter (fun r => r.ID == id)).length
  else ((old.zip new).filter (fun p => p.1 != p.2)).length

/-- The function `UpdateRelationship`: the result is the number of rows affected,
or the error of `Exec` when the statement has a row to change and a field does
not fit its column, in which case nothing changes. -/
def UpdateRelationship (c : Conn) (id : Nat) (onion frm identifierType identifier : String)
    (w : World) : Except Error Nat × World :=
  let rows := w.relationships.map (updateRow id onion frm identifierType identifier w.now)
  if w.relationships.any (fun r => r.ID == id)
      && !(fitsRelationship onion frm identifierType identifier) then
    (.error .dataTooLong, { w with tick := w.tick + 1 })
  else
    (.ok (rowsAffected c id w.relationships rows),
     { w with relationships := rows, tick := w.tick + 1 })

/-- The function `InsertRelationship`: update the first row found for the onion
that agrees on the other three fields, else (also when the lookup fails) insert. -/
def InsertRelationship (c : Conn) (onion frm identifierType identifier : String) (w : World) :
    Except Error Nat × World :=
  match GetRelationshipsWithOnion c w onion with
  | .ok rels =>
      match rels.find? (fun rel =>
          rel.From == frm && rel.Identifier == identifier && rel.Type_ == identifierType) with
      | some rel => UpdateRelationship c rel.ID onion frm identifierType identifier w
      | none => InsertNewRelationship onion frm identifierType identifier w
  | .error _ => InsertNewRelationship onion frm identifierType identifier w

/-- The function `DeleteRelationship`. -/
def DeleteRelationship (onion frm identifierType identifier : String) (w : World) :
    Option Error × World :=
  (none,
   { w with relationships :=
       w.relationships.filter (fun r => !(r.hasTuple onion frm identifierType identifier)) })

/-- The function `GetRelationshipsWithIdentifier`. -/
def GetRelationshipsWithIdentifier (c : Conn) (w : World) (identifier : String) :
    Except Error (List Relationship) :=
  scanRows (scanRelationshipBytes c)
    (w.relationships.filter (fun r =>
      r.Type_ == identifier || r.From == identifier || r.Identifier == identifier))

/-- Assignment `m[k] = v` on a Go map, kept as an association list. -/
def mapSet (m : List (String × Relationship)) (k : String) (v : Relationship) :
    List (String × Relationship) :=
  (k, v) :: m.filter (fun p => p.1 != k)

/-- The function `GetUserRelationshipFromOnion`. -/
def GetUserRelationshipFromOnion (c : Conn) (w : World) (identifier fromonion : String) :
    Except Error (List (String × Relationship)) :=
  match scanRows (scanRelationshipTime c)
      (w.relationships.filter (fun r => r.Onion == identifier && r.From == fromonion)) with
  | .error e => .error e
  | .ok rels => .ok (rels.foldl (fun m r => mapSet m r.Type_ r) [])

/-! ## Crawl records -/

/-- The JSON encoding of `model.Page`, which the store does not interpret. -/
structure Codec (Page : Type) where
  marshal : Page → Except Error String
  unmarshal : String → Except Error Page

/-- The Go struct `CrawlRecord`. -/
structure CrawlRecord (Page : Type) where
  ID : Nat
  URL : String
  Timestamp : Int
  Page : Page

/-- Columns `ID, URL, Timestamp, Page` of a row of `crawls`. -/
def crawlColumns (c : Conn) (r : CrawlRow) : List Value :=
  [.int r.ID, .bytes (.str r.URL), timeValue c r.Timestamp, .bytes (.str r.Page)]

/-- The function `InsertCrawlRecord`: `URL` is a `VARCHAR(255)` column and `Page`
a `TEXT` column; when a value does not fit, `Exec` fails and no row is stored. -/
def InsertCrawlRecord {Page : Type} (k : Codec Page) (url : String) (page : Page) (w : World) :
    Except Error Nat × World :=
  match k.marshal page with
  | .error e => (.error e, w)
  | .ok pageJSON =>
      let id := w.crawlsNext
      if fitsVarchar url && fitsText pageJSON then
        (.ok id,
         { w with
           crawls := w.crawls ++ [{ ID := id, URL := url, Timestamp := w.now, Page := pageJSON }]
           crawlsNext := id + 1
           tick := w.tick + 1 })
      else (.error .dataTooLong, { w with tick := w.tick + 1 })

/-- The function `GetCrawlRecord`.  The third destination of `Scan` is the
string `timestampStr` itself, not its address; the variable therefore stays
empty, and the error of `time.Parse` is overwritten by that of `json.Unmarshal`. -/
def GetCrawlRecord {Page : Type} (c : Conn) (k : Codec Page) (w : World) (id : Nat) :
    Except Error (CrawlRecord Page) :=
  match w.crawls.find? (fun r => r.ID == id) with
  | none => .error .errNoRows
  | some row =>
      match scan [.intPtr, .stringPtr, .stringVal, .stringPtr] (crawlColumns c row) with
      | .error e => .error e
      | .ok [.int rid, .text (.str url), _, .text (.str pageJSON)] =>
          let timestamp :=
            match timeParse (.str "") with
            | .ok t => t
            | .error _ => zeroTime
          match k.unmarshal pageJSON with
          | .error e => .error e
          | .ok page => .ok { ID := rid, URL := url, Timestamp := timestamp, Page := page }
      | .ok _ => .error .unsupportedScan

/-- The function `HasCrawlRecord`: `duration` is added to the current time, and
the first row of the URL with a later timestamp is reported.  An error stands
for the `panic`. -/
def HasCrawlRecord (c : Conn) (url : String) (duration : Int) (w : World) :
    Except Error (Bool × Nat) × World :=
  let before := w.now + duration
  match w.crawls.find? (fun r => r.URL == url && decide (r.Timestamp > before)) with
  | none => (.ok (false, 0), w.advance)
  | some row =>
      match scan [.intPtr, .stringPtr] [.int row.ID, timeValue c row.Timestamp] with
      | .error e => (.error e, w.advance)
      | .ok [.int id, .text _] => (.ok (true, id), w.advance)
      | .ok _ => (.error .unsupportedScan, w.advance)

/-! ## The onion address validator -/

/-- A byte of a Go string. -/
abbrev Byte := Fin 256

/-- Regular expressions without iteration, enough for the pattern of `IsOnion`. -/
inductive Re where
  /-- the anchor `^` -/
  | bol
  /-- the anchor `$` -/
  | eol
  /-- one byte in one of the inclusive ranges -/
  | cls (ranges : List (Byte × Byte))
  | seq (a b : Re)
  | alt (a b : Re)
  /-- the repetition `a{n}` -/
  | rep (n : Nat) (a : Re)

/-- Membership of a byte in a class. -/
def inClass (ranges : List (Byte × Byte)) (b : Byte) : Bool :=
  ranges.any (fun r => decide (r.1 ≤ b) && decide (b ≤ r.2))

/-- All ways to match `re` at offset `pos`, where `rest` is the input from that
offset on: every result is the offset and the input left after one match. -/
def Re.ends : Re → Nat × List Byte → List (Nat × List Byte)
  | .bol, (pos, rest) => if pos = 0 then [(pos, rest)] else []
  | .eol, (pos, rest) => if rest.isEmpty then [(pos, rest)] else []
  | .cls ranges, (pos, rest) =>
      match rest with
      | b :: tl => if inClass ranges b then [(pos + 1, tl)] else []
      | [] => []
  | .seq a b, st => (a.ends st).flatMap (fun st1 => b.ends st1)
  | .alt a b, st => a.ends st ++ b.ends st
  | .rep n a, st => (fun sts => sts.flatMap (fun st1 => a.ends st1))^[n] [st]

/-- Unanchored search: is there a match starting at `pos` or later? -/
def Re.search (re : Re) : Nat → List Byte → Bool
  | pos, [] => !(re.ends (pos, [])).isEmpty
  | pos, b :: tl => !(re.ends (pos, b :: tl)).isEmpty || re.search (pos + 1) tl

/-- The call `regexp.MatchString(pattern, s)` for a compiled pattern. -/
def MatchString (re : Re) (s : List Byte) : Bool := re.search 0 s

/-- The literal of one byte. -/
def Re.byte (b : Byte) : Re := .cls [(b, b)]

/-- The bytes of `.onion`. -/
def dotOnion : List Byte := [46, 111, 110, 105, 111, 110]

/-- The class `[a-z2-7]`. -/
def base32 : List (Byte × Byte) := [(97, 122), (50, 55)]

/-- The pattern `(^|\.)[a-z2-7]{56}\.onion$`. -/
def onionPattern : Re :=
  .seq (.alt .bol (.byte 46))
    (.seq (.rep 56 (.cls base32))
      (.seq (.byte 46) (.seq (.byte 111) (.seq (.byte 110) (.seq (.byte 105)
        (.seq (.byte 111) (.seq (.byte 110) .eol)))))))

/-- The function `strings.HasSuffix`. -/
def HasSuffix (s suffix : List Byte) : Bool := suffix.isSuffixOf s

/-- The function `IsOnion`. -/
def IsOnion (identifier : List Byte) : Bool :=
  if identifier.length ≥ 22 && HasSuffix identifier dotOnion then
    MatchString onionPattern identifier
  else false

/-! ## Observation sequences and reachable stores -/

/-- The world after `n` sequential calls `InsertRelationship(o, f, t, i)`. -/
def observe (c : Conn) (o f t i : String) : Nat → World → World
  | 0, w => w
  | n + 1, w => observe c o f t i n (InsertRelationship c o f t i w).2

/-- Whether the lookup made by each of `n` sequential calls
`InsertRelationship(o, f, t, i)` returns without error. -/
def lookupsSucceed (c : Conn) (o f t i : String) : Nat → World → Bool
  | 0, _ => true
  | n + 1, w =>
      (GetRelationshipsWithOnion c w o).isOk
        && lookupsSucceed c o f t i n (InsertRelationship c o f t i w).2

/-- Stores reachable from the empty one by the exported mutating operations on
relationships, all over one connection. -/
inductive Reachable (c : Conn) (clock : Nat → Int) : World → Prop where
  | empty : Reachable c clock (World.empty clock)
  | insertRelationship (o f t i : String) {w : World} :
      Reachable c clock w → Reachable c clock (InsertRelationship c o f t i w).2
  | insertNewRelationship (o f t i : String) {w : World} :
      Reachable c clock w → Reachable c clock (InsertNewRelationship o f t i w).2
  | updateRelationship (id : Nat) (o f t i : String) {w : World} :
      Reachable c clock w → Reachable c clock (UpdateRelationship c id o f t i w).2
  | deleteRelationship (o f t i : String) {w : World} :
      Reachable c clock w → Reachable c clock (DeleteRelationship o f t i w).2

/-! ## Lemmas on `Scan` and the lookups -/

theorem longOnion_length : longOnion.length = 256 :=
  List.length_replicate 256 'a'

theorem longOnion_too_long (f t i : String) : fitsRelationship longOnion f t i = false := by
  have hv : fitsVarchar longOnion = false := by
    unfold fitsVarchar
    rw [longOnion_length]
    rfl
  unfold fitsRelationship
  rw [hv]
  rfl

theorem hasTuple_iff (r : Relationship) (o f t i : String) :
    r.hasTuple o f t i = true ↔ r.Onion = o ∧ r.From = f ∧ r.Type_ = t ∧ r.Identifier = i := by
  simp [Relationship.hasTuple, and_assoc]

theorem scanRelationshipBytes_text (c : Conn) (h : c.parseTime = false) (r : Relationship) :
    scanRelationshipBytes c r = .ok r := by
  simp [scanRelationshipBytes, scan, scanColumns, convertAssign, relationshipColumns, timeValue,
    h, parseSeen, Text.len, timeParse]

theorem scanRelationshipBytes_time (c : Conn) (h : c.parseTime = true) (r : Relationship) :
    scanRelationshipBytes c r = .error .timeParse := by
  simp [scanRelationshipBytes, scan, scanColumns, convertAssign, relationshipColumns, timeValue,
    h, parseSeen, Text.len, timeParse]

theorem scanRelationshipTime_text (c : Conn) (h : c.parseTime = false) (r : Relationship) :
    scanRelationshipTime c r = .error .unsupportedScan := by
  simp [scanRelationshipTime, scan, scanColumns, convertAssign, relationshipColumns, timeValue, h]

theorem scanRelationshipTime_time (c : Conn) (h : c.parseTime = true) (r : Relationship) :
    scanRelationshipTime c r = .ok r := by
  simp [scanRelationshipTime, scan, scanColumns, convertAssign, relationshipColumns, timeValue, h]

theorem scanRows_id (f : Relationship → Except Error Relationship) (l : List Relationship)
    (h : ∀ r ∈ l, f r = .ok r) : scanRows f l = .ok l := by
  induction l with
  | nil => rfl
  | cons a l ih =>
      have ha := h a (List.mem_cons_self a l)
      have hl := ih (fun r hr => h r (List.mem_cons_of_mem a hr))
      simp [scanRows, ha, hl]

theorem scanRows_error (f : Relationship → Except Error Relationship) (e : Error)
    (a : Relationship) (l : List Relationship) (h : f a = .error e) :
    scanRows f (a :: l) = .error e := by
  simp [scanRows, h]

theorem scanRows_bytes_ok (c : Conn) (l xs : List Relationship)
    (h : scanRows (scanRelationshipBytes c) l = .ok xs) : xs = l := by
  cases hp : c.parseTime with
  | false =>
      rw [scanRows_id _ l (fun r _ => scanRelationshipBytes_text c hp r)] at h
      exact (Except.ok.inj h).symm
  | true =>
      cases l with
      | nil => simpa [scanRows] using h.symm
      | cons a l =>
          rw [scanRows_error _ _ a l (scanRelationshipBytes_time c hp a)] at h
          cases h

theorem GetRelationshipsWithOnion_ok (c : Conn) (w : World) (o : String)
    (rels : List Relationship) (h : GetRelationshipsWithOnion c w o = .ok rels) :
    rels = w.relationships.filter (fun r => r.Onion == o) :=
  scanRows_bytes_ok c _ rels h

theorem GetRelationshipsWithOnion_text (c : Conn) (hp : c.parseTime = false) (w : World)
    (o : String) :
    GetRelationshipsWithOnion c w o = .ok (w.relationships.filter (fun r => r.Onion == o)) :=
  scanRows_id _ _ (fun r _ => scanRelationshipBytes_text c hp r)

/-! ## Lemmas on insert and update -/

theorem InsertRelationship_absent (c : Conn) (o f t i : String) (w : World)
    (h : ∀ r ∈ w.relationships, r.hasTuple o f t i = false) :
    InsertRelationship c o f t i w = InsertNewRelationship o f t i w := by
  unfold InsertRelationship
  cases hq : GetRelationshipsWithOnion c w o with
  | error e => rfl
  | ok rels =>
      have hrels := GetRelationshipsWithOnion_ok c w o rels hq
      have hnone : rels.find? (fun rel => rel.From == f && rel.Identifier == i && rel.Type_ == t)
          = none := by
        rw [List.find?_eq_none]
        intro x hx hpx
        rw [hrels, List.mem_filter] at hx
        have hx2 := h x hx.1
        have : x.hasTuple o f t i = true := by
          simp only [Bool.and_eq_true, beq_iff_eq] at hpx hx
          exact (hasTuple_iff x o f t i).2 ⟨hx.2, hpx.1.1, hpx.2, hpx.1.2⟩
        rw [this] at hx2
        cases hx2
      simp only [hnone]

theorem InsertRelationship_present (c : Conn) (o f t i : String) (w : World)
    (r : Relationship) (rels : List Relationship)
    (hq : GetRelationshipsWithOnion c w o = .ok rels)
    (hr : w.relationships.filter (fun x => x.hasTuple o f t i) = [r]) :
    InsertRelationship c o f t i w = UpdateRelationship c r.ID o f t i w := by
  unfold InsertRelationship
  have hrels := GetRelationshipsWithOnion_ok c w o rels hq
  have hrmem : r ∈ w.relationships.filter (fun x => x.hasTuple o f t i) := by simp [hr]
  rw [List.mem_filter] at hrmem
  have hrt := (hasTuple_iff r o f t i).1 hrmem.2
  simp only [hq]
  cases hfind : rels.find? (fun rel => rel.From == f && rel.Identifier == i && rel.Type_ == t) with
  | none =>
      rw [List.find?_eq_none] at hfind
      have hmem : r ∈ rels := by
        rw [hrels, List.mem_filter]
        exact ⟨hrmem.1, by simp [hrt.1]⟩
      have := hfind r hmem
      simp [hrt.2.1, hrt.2.2.1, hrt.2.2.2] at this
  | some x =>
      have hpx := List.find?_some hfind
      have hx := List.mem_of_find?_eq_some hfind
      rw [hrels, List.mem_filter] at hx
      have hxt : x.hasTuple o f t i = true := by
        simp only [Bool.and_eq_true, beq_iff_eq] at hpx hx
        exact (hasTuple_iff x o f t i).2 ⟨hx.2, hpx.1.1, hpx.2, hpx.1.2⟩
      have hxm : x ∈ w.relationships.filter (fun x => x.hasTuple o f t i) :=
        List.mem_filter.2 ⟨hx.1, hxt⟩
      rw [hr, List.mem_singleton] at hxm
      simp only [hxm]

theorem eq_of_ID_eq (l : List Relationship) (hnd : (l.map (·.ID)).Nodup)
    (x y : Relationship) (hx : x ∈ l) (hy : y ∈ l) (h : x.ID = y.ID) : x = y :=
  List.inj_on_of_nodup_map hnd hx hy h

theorem updateRow_ID (id : Nat) (o f t i : String) (now : Int) (r : Relationship) :
    (updateRow id o f t i now r).ID = r.ID := by
  unfold updateRow
  split <;> rfl

theorem updateRow_FirstSeen (id : Nat) (o f t i : String) (now : Int) (r : Relationship) :
    (updateRow id o f t i now r).FirstSeen = r.FirstSeen := by
  unfold updateRow
  split <;> rfl

theorem updateRow_of_ne (id : Nat) (o f t i : String) (now : Int) (r : Relationship)
    (h : r.ID ≠ id) : updateRow id o f t i now r = r := by
  simp [updateRow, h]

theorem updateRow_of_tuple (o f t i : String) (now : Int) (r : Relationship)
    (h : r.hasTuple o f t i = true) :
    updateRow r.ID o f t i now r = { r with LastSeen := now } := by
  obtain ⟨h1, h2, h3, h4⟩ := (hasTuple_iff r o f t i).1 h
  simp [updateRow, h1, h2, h3, h4]

theorem map_ID_updateRow (id : Nat) (o f t i : String) (now : Int) (l : List Relationship) :
    (l.map (updateRow id o f t i now)).map (·.ID) = l.map (·.ID) := by
  rw [List.map_map]
  exact List.map_congr_left (fun r _ => updateRow_ID id o f t i now r)

theorem filter_update (o f t i : String) (now : Int) (l : List Relationship) (r : Relationship)
    (hnd : (l.map (·.ID)).Nodup)
    (hr : l.filter (fun x => x.hasTuple o f t i) = [r]) :
    (l.map (updateRow r.ID o f t i now)).filter (fun x => x.hasTuple o f t i)
      = [{ r with LastSeen := now }] := by
  have hrmem : r ∈ l.filter (fun x => x.hasTuple o f t i) := by simp [hr]
  rw [List.mem_filter] at hrmem
  have hupd := updateRow_of_tuple o f t i now r hrmem.2
  rw [List.filter_map]
  have hcongr : l.filter ((fun x => x.hasTuple o f t i) ∘ updateRow r.ID o f t i now)
      = l.filter (fun x => x.hasTuple o f t i) := by
    apply List.filter_congr
    intro x hx
    by_cases hid : x.ID = r.ID
    · have hxr : x = r := eq_of_ID_eq l hnd x r hx hrmem.1 hid
      subst hxr
      simp only [Function.comp, hupd]
      rw [hrmem.2]
      exact (hasTuple_iff _ o f t i).2 ((hasTuple_iff x o f t i).1 hrmem.2)
    · simp only [Function.comp, updateRow_of_ne _ o f t i now x hid]
  rw [hcongr, hr, List.map_singleton, hupd]

theorem InsertNewRelationship_fits (o f t i : String) (w : World)
    (h : fitsRelationship o f t i = true) :
    InsertNewRelationship o f t i w
      = (.ok w.relationshipsNext,
         { w with
           relationships := w.relationships ++
             [{ ID := w.relationshipsNext, Onion := o, From := f, Type_ := t, Identifier := i,
                FirstSeen := w.now, LastSeen := w.advance.now }]
           relationshipsNext := w.relationshipsNext + 1
           tick := w.tick + 2 }) := by
  simp [InsertNewRelationship, h]

theorem InsertNewRelationship_too_long (o f t i : String) (w : World)
    (h : fitsRelationship o f t i = false) :
    InsertNewRelationship o f t i w = (.error .dataTooLong, { w with tick := w.tick + 2 }) := by
  simp [InsertNewRelationship, h]

theorem UpdateRelationship_fits (c : Conn) (id : Nat) (o f t i : String) (w : World)
    (h : fitsRelationship o f t i = true) :
    UpdateRelationship c id o f t i w
      = (.ok (rowsAffected c id w.relationships
            (w.relationships.map (updateRow id o f t i w.now))),
         { w with relationships := w.relationships.map (updateRow id o f t i w.now),
                  tick := w.tick + 1 }) := by
  simp [UpdateRelationship, h]

theorem UpdateRelationship_cases (c : Conn) (id : Nat) (o f t i : String) (w : World) :
    UpdateRelationship c id o f t i w
      = (.ok (rowsAffected c id w.relationships
            (w.relationships.map (updateRow id o f t i w.now))),
         { w with relationships := w.relationships.map (updateRow id o f t i w.now),
                  tick := w.tick + 1 })
    ∨ (UpdateRelationship c id o f t i w = (.error .dataTooLong, { w with tick := w.tick + 1 })
        ∧ fitsRelationship o f t i = false ∧ ∃ r ∈ w.relationships, r.ID = id) := by
  unfold UpdateRelationship
  by_cases h : (w.relationships.any (fun r => r.ID == id)
      && !(fitsRelationship o f t i)) = true
  · right
    rw [if_pos h]
    simp only [Bool.and_eq_true, List.any_eq_true, beq_iff_eq, Bool.not_eq_true'] at h
    exact ⟨rfl, h.2, h.1⟩
  · left
    rw [if_neg h]

theorem InsertNewRelationship_cases (o f t i : String) (w : World) :
    (fitsRelationship o f t i = true ∧ InsertNewRelationship o f t i w
      = (.ok w.relationshipsNext,
         { w with
           relationships := w.relationships ++
             [{ ID := w.relationshipsNext, Onion := o, From := f, Type_ := t, Identifier := i,
                FirstSeen := w.now, LastSeen := w.advance.now }]
           relationshipsNext := w.relationshipsNext + 1
           tick := w.tick + 2 }))
    ∨ (fitsRelationship o f t i = false ∧ InsertNewRelationship o f t i w
        = (.error .dataTooLong, { w with tick := w.tick + 2 })) := by
  cases h : fitsRelationship o f t i with
  | true => exact Or.inl ⟨rfl, InsertNewRelationship_fits o f t i w h⟩
  | false => exact Or.inr ⟨rfl, InsertNewRelationship_too_long o f t i w h⟩

theorem WF_update (c : Conn) (id : Nat) (o f t i : String) (w : World) (h : w.WF) :
    (UpdateRelationship c id o f t i w).2.WF := by
  rcases UpdateRelationship_cases c id o f t i w with h1 | ⟨h1, _, _⟩
  · rw [h1]
    refine ⟨?_, ?_⟩
    · show ((w.relationships.map (updateRow id o f t i w.now)).map (·.ID)).Nodup
      rw [map_ID_updateRow]
      exact h.1
    · intro r hr
      obtain ⟨x, hx, rfl⟩ := List.mem_map.1 hr
      rw [updateRow_ID]
      exact h.2 x hx
  · rw [h1]
    exact h

theorem WF_insertNew (o f t i : String) (w : World) (h : w.WF) :
    (InsertNewRelationship o f t i w).2.WF := by
  rcases InsertNewRelationship_cases o f t i w with ⟨_, h1⟩ | ⟨_, h1⟩
  · rw [h1]
    refine ⟨?_, ?_⟩
    · show (List.map (fun r : Relationship => r.ID) (w.relationships ++ [_])).Nodup
      rw [List.map_append, List.map_singleton, List.nodup_append]
      refine ⟨h.1, List.nodup_singleton _, ?_⟩
      intro a ha hb
      rw [List.mem_singleton] at hb
      obtain ⟨x, hx, rfl⟩ := List.mem_map.1 ha
      have := h.2 x hx
      simp only at hb
      omega
    · intro r hr
      show r.ID < w.relationshipsNext + 1
      rcases List.mem_append.1 hr with hr | hr
      · exact Nat.lt_succ_of_lt (h.2 r hr)
      · rw [List.mem_singleton] at hr
        subst hr
        exact Nat.lt_succ_self _
  · rw [h1]
    exact h

/-! ## Claims on deletion and on the value returned by an update -/

/-- C6: `DeleteRelationship(o, f, t, i)` returns no error on every store, whether
or not a row matches; afterwards no row has the tuple, the rows left are exactly
the rows that differ from the tuple in some field, unchanged and in their order,
and a second identical call returns no error and leaves the store as it is. -/
theorem DeleteRelationship_idempotent (o f t i : String) (w : World) :
    (DeleteRelationship o f t i w).1 = none
    ∧ (∀ r ∈ (DeleteRelationship o f t i w).2.relationships,
        ¬ (r.Onion = o ∧ r.From = f ∧ r.Type_ = t ∧ r.Identifier = i))
    ∧ (∀ r ∈ w.relationships, ¬ (r.Onion = o ∧ r.From = f ∧ r.Type_ = t ∧ r.Identifier = i) →
        r ∈ (DeleteRelationship o f t i w).2.relationships)
    ∧ (DeleteRelationship o f t i w).2.relationships
        = w.relationships.filter
            (fun r => decide ¬ (r.Onion = o ∧ r.From = f ∧ r.Type_ = t ∧ r.Identifier = i))
    ∧ (DeleteRelationship o f t i w).2.relationships.Sublist w.relationships
    ∧ (DeleteRelationship o f t i (DeleteRelationship o f t i w).2).1 = none
    ∧ (DeleteRelationship o f t i (DeleteRelationship o f t i w).2).2
        = (DeleteRelationship o f t i w).2 := by
  have hfilter : (DeleteRelationship o f t i w).2.relationships
      = w.relationships.filter
          (fun r => decide ¬ (r.Onion = o ∧ r.From = f ∧ r.Type_ = t ∧ r.Identifier = i)) := by
    show w.relationships.filter (fun r => !(r.hasTuple o f t i)) = _
    apply List.filter_congr
    intro r _
    by_cases h : r.hasTuple o f t i = true
    · simp [h, (hasTuple_iff r o f t i).1 h]
    · have h2 := mt (hasTuple_iff r o f t i).2 h
      simp only [Bool.not_eq_true] at h
      simp [h, h2]
  refine ⟨rfl, ?_, ?_, hfilter, ?_, rfl, ?_⟩
  · intro r hr
    rw [hfilter, List.mem_filter] at hr
    exact of_decide_eq_true hr.2
  · intro r hr hne
    rw [hfilter, List.mem_filter]
    exact ⟨hr, decide_eq_true hne⟩
  · rw [hfilter]
    exact List.filter_sublist _
  · show ({ (DeleteRelationship o f t i w).2 with
            relationships := (DeleteRelationship o f t i w).2.relationships.filter
              (fun r => !(r.hasTuple o f t i)) } : World) = _
    have : (DeleteRelationship o f t i w).2.relationships.filter
        (fun r => !(r.hasTuple o f t i)) = (DeleteRelationship o f t i w).2.relationships := by
      show (w.relationships.filter (fun r => !(r.hasTuple o f t i))).filter
        (fun r => !(r.hasTuple o f t i)) = w.relationships.filter (fun r => !(r.hasTuple o f t i))
      rw [List.filter_filter]
      simp
    rw [this]

theorem changed_le_matched (id : Nat) (o f t i : String) (now : Int) (l : List Relationship) :
    ((l.zip (l.map (updateRow id o f t i now))).filter (fun p => p.1 != p.2)).length
      ≤ (l.filter (fun r => r.ID == id)).length := by
  induction l with
  | nil => simp
  | cons a l ih =>
      by_cases hid : a.ID = id
      · have h1 : (List.filter (fun r : Relationship => r.ID == id) (a :: l)).length
            = (l.filter (fun r => r.ID == id)).length + 1 := by
          simp [List.filter_cons, hid]
        rw [h1, List.map_cons, List.zip_cons_cons, List.filter_cons]
        split
        · simp only [List.length_cons]
          omega
        · omega
      · have h1 : (List.filter (fun r : Relationship => r.ID == id) (a :: l))
            = l.filter (fun r => r.ID == id) := by
          simp [List.filter_cons, hid]
        rw [h1, List.map_cons, List.zip_cons_cons, List.filter_cons,
          updateRow_of_ne id o f t i now a hid]
        simpa using ih

theorem matched_le_one (id : Nat) (l : List Relationship) (hnd : (l.map (·.ID)).Nodup) :
    (l.filter (fun r => r.ID == id)).length ≤ 1 := by
  induction l with
  | nil => simp
  | cons a l ih =>
      rw [List.map_cons, List.nodup_cons] at hnd
      by_cases hid : a.ID = id
      · have hnone : l.filter (fun r => r.ID == id) = [] := by
          rw [List.filter_eq_nil_iff]
          intro x hx hxid
          simp only [beq_iff_eq] at hxid
          exact hnd.1 (List.mem_map.2 ⟨x, hx, by rw [hxid, hid]⟩)
        simp [List.filter_cons, hid, hnone]
      · simpa [List.filter_cons, hid] using ih hnd.2

/-- The update path of `InsertRelationship` returns the number of rows affected,
which is at most 1 on a store with distinct identifiers. -/
theorem UpdateRelationship_value (c : Conn) (id : Nat) (o f t i : String) (w : World)
    (hwf : w.WF) (n : Nat) (hn : (UpdateRelationship c id o f t i w).1 = .ok n) : n ≤ 1 := by
  rcases UpdateRelationship_cases c id o f t i w with h1 | ⟨h1, _, _⟩
  · rw [h1] at hn
    rw [← Except.ok.inj hn]
    unfold rowsAffected
    split
    · exact matched_le_one id _ hwf.1
    · exact le_trans (changed_le_matched id o f t i w.now _) (matched_le_one id _ hwf.1)
  · rw [h1] at hn
    cases hn

/-- C2 (failing input): on the default connection, after `("a.onion", "a.onion",
"pgp", "k0")` and `("b.onion", "b.onion", "pgp", "k1")` were inserted, the second
insert returned identifier 2 and the only row with the second tuple has identifier
2, yet observing the second tuple again returns 1, the number of rows affected. -/
theorem InsertRelationship_update_returns_row_count :
    (InsertRelationship ⟨false, false⟩ "b.onion" "b.onion" "pgp" "k1"
        (InsertRelationship ⟨false, false⟩ "a.onion" "a.onion" "pgp" "k0"
          (World.empty (fun n => (n : Int)))).2).1 = .ok 2
    ∧ ((InsertRelationship ⟨false, false⟩ "b.onion" "b.onion" "pgp" "k1"
        (InsertRelationship ⟨false, false⟩ "a.onion" "a.onion" "pgp" "k0"
          (World.empty (fun n => (n : Int)))).2).2.relationships.filter
        (fun r => r.hasTuple "b.onion" "b.onion" "pgp" "k1")).map (·.ID) = [2]
    ∧ (InsertRelationship ⟨false, false⟩ "b.onion" "b.onion" "pgp" "k1"
        (InsertRelationship ⟨false, false⟩ "b.onion" "b.onion" "pgp" "k1"
          (InsertRelationship ⟨false, false⟩ "a.onion" "a.onion" "pgp" "k0"
            (World.empty (fun n => (n : Int)))).2).2).1 = .ok 1 := by
  refine ⟨rfl, rfl, rfl⟩

/-! ## Claims on crawl records -/

theorem scan_crawl_row (c : Conn) (row : CrawlRow) :
    scan [.intPtr, .stringPtr, .stringVal, .stringPtr] (crawlColumns c row)
      = .error .destinationNotPointer := by
  simp [scan, scanColumns, convertAssign, crawlColumns]

theorem GetCrawlRecord_of_row {Page : Type} (c : Conn) (k : Codec Page) (w : World) (id : Nat)
    (row : CrawlRow) (hrow : row ∈ w.crawls) (hid : row.ID = id) :
    GetCrawlRecord c k w id = .error .destinationNotPointer := by
  unfold GetCrawlRecord
  cases hfind : w.crawls.find? (fun r => r.ID == id) with
  | none =>
      rw [List.find?_eq_none] at hfind
      exact absurd (by simpa using hid) (hfind row hrow)
  | some x => simp only [scan_crawl_row]

/-- C4 (the code at the failing input, for every input): whenever
`InsertCrawlRecord(url, page)` returns `id` without error, the row is stored with
that identifier and URL, and `GetCrawlRecord(id)` on the resulting store returns
the error of `Scan` for a destination that is not a pointer, on every
connection and for every encoding of pages. -/
theorem GetCrawlRecord_after_insert_fails {Page : Type} (c : Conn) (k : Codec Page)
    (url : String) (page : Page) (w : World) (id : Nat)
    (h : (InsertCrawlRecord k url page w).1 = .ok id) :
    (∃ row ∈ (InsertCrawlRecord k url page w).2.crawls, row.ID = id ∧ row.URL = url
        ∧ k.marshal page = .ok row.Page)
    ∧ GetCrawlRecord c k (InsertCrawlRecord k url page w).2 id
        = .error .destinationNotPointer := by
  unfold InsertCrawlRecord at h ⊢
  cases hm : k.marshal page with
  | error e =>
      rw [hm] at h
      cases h
  | ok pageJSON =>
      rw [hm] at h
      simp only at h ⊢
      by_cases hfit : (fitsVarchar url && fitsText pageJSON) = true
      · rw [if_pos hfit] at h ⊢
        have hid : w.crawlsNext = id := Except.ok.inj h
        have hmem : ({ ID := w.crawlsNext, URL := url, Timestamp := w.now, Page := pageJSON } :
            CrawlRow) ∈ w.crawls ++
              [{ ID := w.crawlsNext, URL := url, Timestamp := w.now, Page := pageJSON }] := by
          simp
        exact ⟨⟨_, hmem, hid, rfl, rfl⟩, GetCrawlRecord_of_row c k _ id _ hmem hid⟩
      · rw [if_neg hfit] at h
        cases h

/-- C4 (witness): pages are strings encoded as
themselves, the store is empty, the connection is the default one. -/
theorem GetCrawlRecord_after_insert_fails_witness :
    (InsertCrawlRecord (⟨.ok, .ok⟩ : Codec String) "http://a.onion/" "page"
        (World.empty (fun n => (n : Int)))).1 = .ok 1
    ∧ ((∃ row ∈ (InsertCrawlRecord (⟨.ok, .ok⟩ : Codec String) "http://a.onion/" "page"
          (World.empty (fun n => (n : Int)))).2.crawls, row.ID = 1 ∧ row.URL = "http://a.onion/"
          ∧ (⟨.ok, .ok⟩ : Codec String).marshal "page" = .ok row.Page)
      ∧ GetCrawlRecord ⟨false, false⟩ (⟨.ok, .ok⟩ : Codec String)
          (InsertCrawlRecord (⟨.ok, .ok⟩ : Codec String) "http://a.onion/" "page"
            (World.empty (fun n => (n : Int)))).2 1 = .error .destinationNotPointer) :=
  ⟨rfl, GetCrawlRecord_after_insert_fails ⟨false, false⟩ ⟨.ok, .ok⟩ "http://a.onion/" "page"
    (World.empty (fun n => (n : Int))) 1 rfl⟩

theorem scan_has_crawl (c : Conn) (row : CrawlRow) :
    ∃ x, scan [.intPtr, .stringPtr] [.int row.ID, timeValue c row.Timestamp]
      = .ok [.int row.ID, .text x] := by
  cases hp : c.parseTime <;>
    simp [scan, scanColumns, convertAssign, timeValue, hp]

theorem HasCrawlRecord_found (c : Conn) (url : String) (d : Int) (w : World) (row : CrawlRow)
    (h : w.crawls.find? (fun r => r.URL == url && decide (r.Timestamp > w.now + d)) = some row) :
    (HasCrawlRecord c url d w).1 = .ok (true, row.ID) := by
  obtain ⟨x, hx⟩ := scan_has_crawl c row
  simp only [HasCrawlRecord, h, hx]

theorem HasCrawlRecord_none (c : Conn) (url : String) (d : Int) (w : World)
    (h : w.crawls.find? (fun r => r.URL == url && decide (r.Timestamp > w.now + d)) = none) :
    (HasCrawlRecord c url d w).1 = .ok (false, 0) := by
  simp only [HasCrawlRecord, h]

theorem HasCrawlRecord_exact (c : Conn) (url : String) (d : Int) (w : World) :
    ((∃ r ∈ w.crawls, r.URL = url ∧ w.now + d < r.Timestamp) →
        ∃ (pre : List CrawlRow) (r : CrawlRow) (post : List CrawlRow),
          w.crawls = pre ++ r :: post
          ∧ r.URL = url ∧ w.now + d < r.Timestamp
          ∧ (∀ x ∈ pre, ¬ (x.URL = url ∧ w.now + d < x.Timestamp))
          ∧ (HasCrawlRecord c url d w).1 = .ok (true, r.ID))
    ∧ ((¬ ∃ r ∈ w.crawls, r.URL = url ∧ w.now + d < r.Timestamp) →
        (HasCrawlRecord c url d w).1 = .ok (false, 0)) := by
  constructor
  · rintro ⟨r, hr, hu, ht⟩
    cases hfind : w.crawls.find? (fun r => r.URL == url && decide (r.Timestamp > w.now + d)) with
    | none =>
        rw [List.find?_eq_none] at hfind
        exact absurd (by simp [hu, ht]) (hfind r hr)
    | some row =>
        obtain ⟨hp, pre, post, hsplit, hpre⟩ := List.find?_eq_some.1 hfind
        simp only [Bool.and_eq_true, beq_iff_eq, decide_eq_true_eq] at hp
        refine ⟨pre, row, post, hsplit, hp.1, hp.2, ?_, HasCrawlRecord_found c url d w row hfind⟩
        intro x hx hfresh
        have := hpre x hx
        simp [hfresh.1, hfresh.2] at this
  · intro hno
    apply HasCrawlRecord_none
    rw [List.find?_eq_none]
    intro x hx hp
    simp only [Bool.and_eq_true, beq_iff_eq, decide_eq_true_eq] at hp
    exact hno ⟨x, hx, hp.1, hp.2⟩

/-- C3 (counterexample): a record for `"u"` is inserted at time 100; at time 105,
before 100 + 10, `HasCrawlRecord("u", 10)` returns `(false, 0)`. -/
theorem HasCrawlRecord_positive_age_counterexample :
    ((InsertCrawlRecord (⟨.ok, .ok⟩ : Codec String) "u" "page"
        (World.empty (fun n => 100 + 5 * (n : Int)))).2.crawls.map
          (fun r => (r.ID, r.URL, r.Timestamp))) = [(1, "u", 100)]
    ∧ (InsertCrawlRecord (⟨.ok, .ok⟩ : Codec String) "u" "page"
        (World.empty (fun n => 100 + 5 * (n : Int)))).2.now = 105
    ∧ (105 : Int) < 100 + 10
    ∧ (HasCrawlRecord ⟨false, false⟩ "u" 10
        (InsertCrawlRecord (⟨.ok, .ok⟩ : Codec String) "u" "page"
          (World.empty (fun n => 100 + 5 * (n : Int)))).2).1 = .ok (false, 0) := by
  refine ⟨rfl, rfl, by decide, rfl⟩

/-- C3 (amended): `HasCrawlRecord` adds its duration to the current time.  For
every url, every `maxAge` (positive or not) and every crawl record for url with
timestamp `T`, `HasCrawlRecord(url, -maxAge)` called before `T + maxAge` returns
`(true, id)` where `id` identifies the first record in store order that is for
url and newer than `now - maxAge`, and called at or after `T + maxAge` while no
record for url is newer than `T` it returns `(false, 0)`; for every duration `d`
it reports exactly whether a record for url with timestamp newer than `now + d`
exists, with the identifier of the first such record in store order. -/
theorem HasCrawlRecord_window (c : Conn) (url : String) (maxAge : Int) (w : World)
    (row : CrawlRow) (hrow : row ∈ w.crawls) (hurl : row.URL = url) :
    (w.now < row.Timestamp + maxAge →
        ∃ (pre : List CrawlRow) (r : CrawlRow) (post : List CrawlRow),
          w.crawls = pre ++ r :: post
          ∧ r.URL = url ∧ w.now - maxAge < r.Timestamp
          ∧ (∀ x ∈ pre, ¬ (x.URL = url ∧ w.now - maxAge < x.Timestamp))
          ∧ (HasCrawlRecord c url (-maxAge) w).1 = .ok (true, r.ID))
    ∧ (row.Timestamp + maxAge ≤ w.now →
        (∀ r ∈ w.crawls, r.URL = url → r.Timestamp ≤ row.Timestamp) →
        (HasCrawlRecord c url (-maxAge) w).1 = .ok (false, 0))
    ∧ (∀ d : Int,
        ((∃ r ∈ w.crawls, r.URL = url ∧ w.now + d < r.Timestamp) →
          ∃ (pre : List CrawlRow) (r : CrawlRow) (post : List CrawlRow),
            w.crawls = pre ++ r :: post
            ∧ r.URL = url ∧ w.now + d < r.Timestamp
            ∧ (∀ x ∈ pre, ¬ (x.URL = url ∧ w.now + d < x.Timestamp))
            ∧ (HasCrawlRecord c url d w).1 = .ok (true, r.ID))
        ∧ ((¬ ∃ r ∈ w.crawls, r.URL = url ∧ w.now + d < r.Timestamp) →
          (HasCrawlRecord c url d w).1 = .ok (false, 0))) := by
  refine ⟨?_, ?_, fun d => HasCrawlRecord_exact c url d w⟩
  · intro hlt
    obtain ⟨pre, r, post, hsplit, hu, ht, hpre, hres⟩ :=
      (HasCrawlRecord_exact c url (-maxAge) w).1 ⟨row, hrow, hurl, by omega⟩
    refine ⟨pre, r, post, hsplit, hu, by omega, ?_, hres⟩
    intro x hx hfresh
    exact hpre x hx ⟨hfresh.1, by have := hfresh.2; omega⟩
  · intro hge hnewer
    apply (HasCrawlRecord_exact c url (-maxAge) w).2
    rintro ⟨r, hr, hu, ht⟩
    have := hnewer r hr hu
    omega

/-- C3 (witness): a stale record for `"u"` stamped 90 and two fresh ones stamped
100 and 102, the clock reads 105 and `maxAge` is 10: the identifier returned is
that of the first fresh record. -/
theorem HasCrawlRecord_window_witness :
    (HasCrawlRecord ⟨false, false⟩ "u" (-10)
        { crawls := [⟨1, "u", 90, "p0"⟩, ⟨2, "u", 100, "p1"⟩, ⟨3, "u", 102, "p2"⟩],
          crawlsNext := 4, relationships := [],
          relationshipsNext := 1, clock := fun _ => 105, tick := 0 }).1 = .ok (true, 2) := by
  obtain ⟨pre, r, post, hsplit, _, _, hpre, hres⟩ := (HasCrawlRecord_window ⟨false, false⟩ "u" 10
    { crawls := [⟨1, "u", 90, "p0"⟩, ⟨2, "u", 100, "p1"⟩, ⟨3, "u", 102, "p2"⟩],
      crawlsNext := 4, relationships := [],
      relationshipsNext := 1, clock := fun _ => 105, tick := 0 }
    ⟨3, "u", 102, "p2"⟩ (by simp) rfl).1 (by decide)
  rw [hres]
  have hfresh : ∀ x ∈ pre, x ≠ (⟨2, "u", 100, "p1"⟩ : CrawlRow) := by
    intro x hx hx2
    exact hpre x hx (by rw [hx2]; exact ⟨rfl, by decide⟩)
  have hstale : ¬ ((95 : Int) < 90) := by decide
  match pre, hsplit, hfresh with
  | [], hs, _ =>
      simp only [List.nil_append, List.cons.injEq] at hs
      rename_i hlt _
      rw [← hs.1] at hlt
      exact absurd hlt hstale
  | [_], hs, _ =>
      simp only [List.cons_append, List.nil_append, List.cons.injEq] at hs
      rw [← hs.2.1]
  | _ :: x :: _, hs, hf =>
      simp only [List.cons_append, List.cons.injEq] at hs
      exact absurd hs.2.1.symm (hf x (by simp))

/-! ## Claim on the profile of a subject -/

theorem scanRows_time_error (c : Conn) (hp : c.parseTime = false) (a : Relationship)
    (l : List Relationship) :
    scanRows (scanRelationshipTime c) (a :: l) = .error .unsupportedScan :=
  scanRows_error _ _ a l (scanRelationshipTime_text c hp a)

/-- On a connection that delivers timestamps as text, the profile lookup fails
as soon as one row matches. -/
theorem GetUserRelationshipFromOnion_text (c : Conn) (hp : c.parseTime = false) (w : World)
    (a b : String) (r : Relationship) (hr : r ∈ w.relationships) (ha : r.Onion = a)
    (hb : r.From = b) :
    GetUserRelationshipFromOnion c w a b = .error .unsupportedScan := by
  unfold GetUserRelationshipFromOnion
  have hmem : r ∈ w.relationships.filter (fun r => r.Onion == a && r.From == b) :=
    List.mem_filter.2 ⟨hr, by simp [ha, hb]⟩
  cases hl : w.relationships.filter (fun r => r.Onion == a && r.From == b) with
  | nil =>
      rw [hl] at hmem
      cases hmem
  | cons x xs => rw [scanRows_time_error c hp x xs]

theorem mem_mapSet (m : List (String × Relationship)) (k : String) (v : Relationship)
    (k2 : String) (v2 : Relationship) :
    (k2, v2) ∈ mapSet m k v ↔ (k2 = k ∧ v2 = v) ∨ ((k2, v2) ∈ m ∧ k2 ≠ k) := by
  simp [mapSet, List.mem_filter]

theorem mem_foldl_mapSet (l : List Relationship) :
    ∀ (m : List (String × Relationship)) (k : String) (v : Relationship),
      (k, v) ∈ l.foldl (fun m r => mapSet m r.Type_ r) m
        ↔ l.reverse.find? (fun r => r.Type_ == k) = some v
          ∨ (l.reverse.find? (fun r => r.Type_ == k) = none ∧ (k, v) ∈ m) := by
  induction l with
  | nil =>
      intro m k v
      simp
  | cons a l ih =>
      intro m k v
      rw [List.foldl_cons, ih, mem_mapSet, List.reverse_cons, List.find?_append]
      cases hfind : l.reverse.find? (fun r => r.Type_ == k) with
      | some x => simp
      | none =>
          by_cases hk : a.Type_ = k
          · simp [hk, eq_comm]
          · have hk2 : k ≠ a.Type_ := fun h => hk h.symm
            simp [hk, hk2]

/-- On a connection that delivers timestamps as `time.Time`, the profile lookup
returns a map that binds `k` to `v` exactly when `v` is the last stored row with
the given onion and source whose type is `k`. -/
theorem GetUserRelationshipFromOnion_time (c : Conn) (hp : c.parseTime = true) (w : World)
    (a b : String) :
    ∃ m, GetUserRelationshipFromOnion c w a b = .ok m
      ∧ ∀ k v, (k, v) ∈ m ↔
          (w.relationships.filter (fun r => r.Onion == a && r.From == b)).reverse.find?
            (fun r => r.Type_ == k) = some v := by
  unfold GetUserRelationshipFromOnion
  rw [scanRows_id _ _ (fun r _ => scanRelationshipTime_time c hp r)]
  refine ⟨_, rfl, ?_⟩
  intro k v
  rw [mem_foldl_mapSet]
  simp

/-- C7 (failing input): on the default connection, with the two rows
`(A, B, "pgp", "k1")` and `(A, B, "btc", "w1")` stored,
`GetUserRelationshipFromOnion(A, B)` returns the error of `Scan`, not a map with
the keys `"pgp"` and `"btc"`; the sibling lookup over the same rows succeeds. -/
theorem GetUserRelationshipFromOnion_default_connection_fails :
    (InsertRelationship ⟨false, false⟩ "A" "B" "btc" "w1"
        (InsertRelationship ⟨false, false⟩ "A" "B" "pgp" "k1"
          (World.empty (fun n => (n : Int)))).2).2.relationships
      = [⟨1, "A", "B", "pgp", "k1", 0, 1⟩, ⟨2, "A", "B", "btc", "w1", 2, 3⟩]
    ∧ GetUserRelationshipFromOnion ⟨false, false⟩
        (InsertRelationship ⟨false, false⟩ "A" "B" "btc" "w1"
          (InsertRelationship ⟨false, false⟩ "A" "B" "pgp" "k1"
            (World.empty (fun n => (n : Int)))).2).2 "A" "B" = .error .unsupportedScan
    ∧ GetRelationshipsWithOnion ⟨false, false⟩
        (InsertRelationship ⟨false, false⟩ "A" "B" "btc" "w1"
          (InsertRelationship ⟨false, false⟩ "A" "B" "pgp" "k1"
            (World.empty (fun n => (n : Int)))).2).2 "A"
      = .ok [⟨1, "A", "B", "pgp", "k1", 0, 1⟩, ⟨2, "A", "B", "btc", "w1", 2, 3⟩] := by
  refine ⟨rfl, rfl, rfl⟩

/-! ## Claims on repeated and on distinct observations -/

theorem InsertRelationship_cases (c : Conn) (o f t i : String) (w : World) :
    InsertRelationship c o f t i w = InsertNewRelationship o f t i w
    ∨ ∃ rel ∈ w.relationships, rel.hasTuple o f t i = true
        ∧ InsertRelationship c o f t i w = UpdateRelationship c rel.ID o f t i w := by
  unfold InsertRelationship
  cases hq : GetRelationshipsWithOnion c w o with
  | error e => exact Or.inl rfl
  | ok rels =>
      have hrels := GetRelationshipsWithOnion_ok c w o rels hq
      dsimp only
      cases hfind : rels.find?
          (fun rel => rel.From == f && rel.Identifier == i && rel.Type_ == t) with
      | none => exact Or.inl rfl
      | some x =>
          have hpx := List.find?_some hfind
          have hx := List.mem_of_find?_eq_some hfind
          rw [hrels, List.mem_filter] at hx
          simp only [Bool.and_eq_true, beq_iff_eq] at hpx hx
          exact Or.inr ⟨x, hx.1, (hasTuple_iff x o f t i).2 ⟨hx.2, hpx.1.1, hpx.2, hpx.1.2⟩, rfl⟩

theorem observe_one (c : Conn) (o f t i : String) (w : World) :
    observe c o f t i 1 w = (InsertRelationship c o f t i w).2 := rfl

theorem InsertRelationship_WF (c : Conn) (o f t i : String) (w : World) (h : w.WF) :
    (InsertRelationship c o f t i w).2.WF := by
  rcases InsertRelationship_cases c o f t i w with h1 | ⟨rel, _, _, h1⟩
  · rw [h1]
    exact WF_insertNew o f t i w h
  · rw [h1]
    exact WF_update c rel.ID o f t i w h

theorem InsertRelationship_present_fits (c : Conn) (o f t i : String) (w : World)
    (r : Relationship) (hwf : w.WF) (hfit : fitsRelationship o f t i = true)
    (hq : (GetRelationshipsWithOnion c w o).isOk = true)
    (hr : w.relationships.filter (fun x => x.hasTuple o f t i) = [r]) :
    (InsertRelationship c o f t i w).2.relationships.filter (fun x => x.hasTuple o f t i)
        = [{ r with LastSeen := w.now }]
    ∧ (InsertRelationship c o f t i w).2.tick = w.tick + 1
    ∧ (InsertRelationship c o f t i w).2.clock = w.clock := by
  cases hlook : GetRelationshipsWithOnion c w o with
  | error e =>
      rw [hlook] at hq
      cases hq
  | ok rels =>
      rw [InsertRelationship_present c o f t i w r rels hlook hr,
        UpdateRelationship_fits c r.ID o f t i w hfit]
      exact ⟨filter_update o f t i w.now w.relationships r hwf.1 hr, rfl, rfl⟩

theorem observe_present (c : Conn) (o f t i : String) (hfit : fitsRelationship o f t i = true)
    (m : Nat) :
    ∀ (w : World) (r : Relationship), w.WF →
      w.relationships.filter (fun x => x.hasTuple o f t i) = [r] →
      lookupsSucceed c o f t i (m + 1) w = true →
      ∃ r2, (observe c o f t i (m + 1) w).relationships.filter (fun x => x.hasTuple o f t i)
          = [r2]
        ∧ r2.ID = r.ID ∧ r2.FirstSeen = r.FirstSeen
        ∧ r2.LastSeen = (observe c o f t i m w).now
        ∧ (observe c o f t i (m + 1) w).tick = (observe c o f t i m w).tick + 1 := by
  induction m with
  | zero =>
      intro w r hwf hr hok
      simp only [lookupsSucceed, Bool.and_eq_true] at hok
      obtain ⟨h1, h2, _⟩ := InsertRelationship_present_fits c o f t i w r hwf hfit hok.1 hr
      exact ⟨_, h1, rfl, rfl, rfl, h2⟩
  | succ m ih =>
      intro w r hwf hr hok
      have hok2 : (GetRelationshipsWithOnion c w o).isOk = true
          ∧ lookupsSucceed c o f t i (m + 1) (InsertRelationship c o f t i w).2 = true := by
        have := hok
        rw [lookupsSucceed, Bool.and_eq_true] at this
        exact this
      obtain ⟨h1, _, _⟩ := InsertRelationship_present_fits c o f t i w r hwf hfit hok2.1 hr
      obtain ⟨r2, g1, g2, g3, g4, g5⟩ := ih (InsertRelationship c o f t i w).2
        { r with LastSeen := w.now } (InsertRelationship_WF c o f t i w hwf) h1 hok2.2
      exact ⟨r2, g1, g2, g3, g4, g5⟩

/-- C1 (counterexample): on the empty store, with the clock `0, 1, 2, ...` and
lookups that succeed, one call for a short tuple leaves a row whose `FirstSeen`
is 0 and whose `LastSeen` is 1, so no single time of that call is both; and one
call for a tuple whose onion has 256 characters returns the error of `Exec` and
leaves no row at all. -/
theorem InsertRelationship_repeated_counterexample :
    lookupsSucceed ⟨false, false⟩ "a.onion" "b.onion" "pgp" "k1" 1
        (World.empty (fun n => (n : Int))) = true
    ∧ (observe ⟨false, false⟩ "a.onion" "b.onion" "pgp" "k1" 1
        (World.empty (fun n => (n : Int)))).relationships
        = [⟨1, "a.onion", "b.onion", "pgp", "k1", 0, 1⟩]
    ∧ (¬ ∃ T : Int, ∀ r ∈ (observe ⟨false, false⟩ "a.onion" "b.onion" "pgp" "k1" 1
        (World.empty (fun n => (n : Int)))).relationships, r.FirstSeen = T ∧ r.LastSeen = T)
    ∧ longOnion.length = 256
    ∧ lookupsSucceed ⟨false, false⟩ longOnion "b.onion" "pgp" "k1" 1
        (World.empty (fun n => (n : Int))) = true
    ∧ (InsertRelationship ⟨false, false⟩ longOnion "b.onion" "pgp"
        "k1" (World.empty (fun n => (n : Int)))).1 = .error .dataTooLong
    ∧ (observe ⟨false, false⟩ longOnion "b.onion" "pgp" "k1" 1
        (World.empty (fun n => (n : Int)))).relationships = [] := by
  have hlong := longOnion_too_long "b.onion" "pgp" "k1"
  have hstep := InsertRelationship_absent ⟨false, false⟩ longOnion
    "b.onion" "pgp" "k1" (World.empty (fun n => (n : Int))) (fun r hr => by cases hr)
  have hres := InsertNewRelationship_too_long longOnion
    "b.onion" "pgp" "k1" (World.empty (fun n => (n : Int))) hlong
  refine ⟨rfl, rfl, ?_, longOnion_length, rfl, ?_, ?_⟩
  · rintro ⟨T, hT⟩
    have h := hT ⟨1, "a.onion", "b.onion", "pgp", "k1", 0, 1⟩ (List.mem_singleton.2 rfl)
    have h0 : (0 : Int) = T := h.1
    have h1 : (1 : Int) = T := h.2
    omega
  · rw [hstep, hres]
  · rw [observe_one, hstep, hres]
    rfl

/-- C1 (amended): for a tuple `(o, f, t, i)` whose fields fit the `VARCHAR(255)`
columns, on a store whose identifiers are distinct and which holds no row with
the tuple, after `n + 1` sequential calls `InsertRelationship(o, f, t, i)` whose
lookups succeed exactly one row has the tuple.  Its `FirstSeen` is the first
clock reading of the first call.  Its `LastSeen` is the second clock reading of
that call when it is the only one, and the clock reading of the last call, which
reads the clock once, when there are two calls or more. -/
theorem InsertRelationship_repeated_unique (c : Conn) (o f t i : String) (n : Nat) (w : World)
    (hwf : w.WF) (hfit : fitsRelationship o f t i = true)
    (habs : ∀ r ∈ w.relationships, r.hasTuple o f t i = false)
    (hok : lookupsSucceed c o f t i (n + 1) w = true) :
    ∃ r, (observe c o f t i (n + 1) w).relationships.filter (fun x => x.hasTuple o f t i) = [r]
      ∧ r.FirstSeen = w.now
      ∧ (n = 0 → r.LastSeen = w.advance.now
          ∧ (observe c o f t i (n + 1) w).tick = w.tick + 2)
      ∧ (0 < n → r.LastSeen = (observe c o f t i n w).now
          ∧ (observe c o f t i (n + 1) w).tick = (observe c o f t i n w).tick + 1) := by
  have hstep := InsertRelationship_absent c o f t i w habs
  have hins := InsertNewRelationship_fits o f t i w hfit
  have hnone : w.relationships.filter (fun x => x.hasTuple o f t i) = [] := by
    rw [List.filter_eq_nil_iff]
    intro a ha
    rw [habs a ha]
    exact Bool.false_ne_true
  have hfil : (InsertRelationship c o f t i w).2.relationships.filter
      (fun x => x.hasTuple o f t i)
      = [{ ID := w.relationshipsNext, Onion := o, From := f, Type_ := t, Identifier := i,
           FirstSeen := w.now, LastSeen := w.advance.now }] := by
    rw [hstep, hins]
    show List.filter (fun x : Relationship => x.hasTuple o f t i) (w.relationships ++ [_]) = _
    rw [List.filter_append, hnone]
    simp [Relationship.hasTuple]
  have htick : (InsertRelationship c o f t i w).2.tick = w.tick + 2 := by
    rw [hstep, hins]
  cases n with
  | zero =>
      refine ⟨_, hfil, rfl, fun _ => ⟨rfl, htick⟩, fun h => absurd h (Nat.lt_irrefl 0)⟩
  | succ m =>
      have hok2 : (GetRelationshipsWithOnion c w o).isOk = true
          ∧ lookupsSucceed c o f t i (m + 1) (InsertRelationship c o f t i w).2 = true := by
        have := hok
        rw [lookupsSucceed, Bool.and_eq_true] at this
        exact this
      obtain ⟨r2, g1, _, g3, g4, g5⟩ := observe_present c o f t i hfit m
        (InsertRelationship c o f t i w).2 _ (InsertRelationship_WF c o f t i w hwf) hfil hok2.2
      exact ⟨r2, g1, g3, fun h => absurd h (Nat.succ_ne_zero m), fun _ => ⟨g4, g5⟩⟩

/-- C1 (witness): three observations of one tuple on a store that holds another
tuple of the same onion. -/
theorem InsertRelationship_repeated_unique_witness :
    ∃ r, (observe ⟨false, false⟩ "a.onion" "b.onion" "pgp" "k1" 3
          { crawls := [], crawlsNext := 1,
            relationships := [⟨4, "a.onion", "b.onion", "btc", "w1", 0, 0⟩],
            relationshipsNext := 7, clock := fun n => (n : Int), tick := 5 }).relationships.filter
          (fun x => x.hasTuple "a.onion" "b.onion" "pgp" "k1") = [r]
      ∧ r.FirstSeen = 5
      ∧ r.LastSeen = 8 := by
  obtain ⟨r, h1, h2, _, h4⟩ := InsertRelationship_repeated_unique ⟨false, false⟩
    "a.onion" "b.onion" "pgp" "k1" 2
    { crawls := [], crawlsNext := 1,
      relationships := [⟨4, "a.onion", "b.onion", "btc", "w1", 0, 0⟩],
      relationshipsNext := 7, clock := fun n => (n : Int), tick := 5 }
    (by simp [World.WF]) rfl (by simp [Relationship.hasTuple]) rfl
  exact ⟨r, h1, h2, (h4 (by decide)).1⟩

theorem hasTuple_exclusive (o f t i o2 f2 t2 i2 : String)
    (hne : (o, f, t, i) ≠ (o2, f2, t2, i2)) (r : Relationship)
    (hr : r.hasTuple o f t i = true) : r.hasTuple o2 f2 t2 i2 = false := by
  obtain ⟨h1, h2, h3, h4⟩ := (hasTuple_iff r o f t i).1 hr
  cases hb : r.hasTuple o2 f2 t2 i2 with
  | false => rfl
  | true =>
      obtain ⟨g1, g2, g3, g4⟩ := (hasTuple_iff r o2 f2 t2 i2).1 hb
      exact absurd (by rw [← h1, ← h2, ← h3, ← h4, g1, g2, g3, g4]) hne

theorem InsertRelationship_rows (c : Conn) (o f t i : String) (w : World) :
    (InsertRelationship c o f t i w).2.relationships = w.relationships
    ∨ (fitsRelationship o f t i = true
        ∧ (InsertRelationship c o f t i w).1 = .ok w.relationshipsNext
        ∧ (InsertRelationship c o f t i w).2.relationships = w.relationships ++
            [{ ID := w.relationshipsNext, Onion := o, From := f, Type_ := t, Identifier := i,
               FirstSeen := w.now, LastSeen := w.advance.now }])
    ∨ (∃ rel ∈ w.relationships, rel.hasTuple o f t i = true
        ∧ (InsertRelationship c o f t i w).2.relationships
            = w.relationships.map (updateRow rel.ID o f t i w.now)) := by
  rcases InsertRelationship_cases c o f t i w with h1 | ⟨rel, hrel, hrt, h1⟩
  · rcases InsertNewRelationship_cases o f t i w with ⟨hfit, h2⟩ | ⟨_, h2⟩
    · right
      left
      rw [h1, h2]
      exact ⟨hfit, rfl, rfl⟩
    · left
      rw [h1, h2]
  · rcases UpdateRelationship_cases c rel.ID o f t i w with h2 | ⟨h2, _, _⟩
    · right
      right
      refine ⟨rel, hrel, hrt, ?_⟩
      rw [h1, h2]
    · left
      rw [h1, h2]

theorem InsertRelationship_keeps_absent (c : Conn) (o f t i o2 f2 t2 i2 : String) (w : World)
    (hne : (o, f, t, i) ≠ (o2, f2, t2, i2))
    (habs : ∀ r ∈ w.relationships, r.hasTuple o2 f2 t2 i2 = false) :
    ∀ r ∈ (InsertRelationship c o f t i w).2.relationships, r.hasTuple o2 f2 t2 i2 = false := by
  have hnew := hasTuple_exclusive o f t i o2 f2 t2 i2 hne
  rcases InsertRelationship_rows c o f t i w with h1 | ⟨_, _, h1⟩ | ⟨rel, _, _, h1⟩
  · rw [h1]
    exact habs
  · rw [h1]
    intro r hr
    rcases List.mem_append.1 hr with hr | hr
    · exact habs r hr
    · rw [List.mem_singleton] at hr
      subst hr
      exact hnew _ (by simp [Relationship.hasTuple])
  · rw [h1]
    intro r hr
    obtain ⟨x, hx, rfl⟩ := List.mem_map.1 hr
    by_cases hid : x.ID = rel.ID
    · apply hnew
      simp [updateRow, hid, Relationship.hasTuple]
    · rw [updateRow_of_ne _ o f t i _ x hid]
      exact habs x hx

theorem InsertRelationship_has_row (c : Conn) (o f t i : String) (w : World)
    (hfit : fitsRelationship o f t i = true) :
    ∃ r ∈ (InsertRelationship c o f t i w).2.relationships, r.hasTuple o f t i = true := by
  rcases InsertRelationship_cases c o f t i w with h1 | ⟨rel, hrel, _, h1⟩
  · rw [h1, InsertNewRelationship_fits o f t i w hfit]
    exact ⟨_, List.mem_append_right _ (List.mem_singleton.2 rfl), by simp [Relationship.hasTuple]⟩
  · rw [h1, UpdateRelationship_fits c rel.ID o f t i w hfit]
    exact ⟨_, List.mem_map.2 ⟨rel, hrel, rfl⟩, by simp [updateRow, Relationship.hasTuple]⟩

theorem InsertRelationship_others (c : Conn) (o f t i : String) (w : World) (hwf : w.WF) :
    (InsertRelationship c o f t i w).2.relationships.filter (fun r => !(r.hasTuple o f t i))
      = w.relationships.filter (fun r => !(r.hasTuple o f t i)) := by
  rcases InsertRelationship_rows c o f t i w with h1 | ⟨_, _, h1⟩ | ⟨rel, hrel, hrt, h1⟩
  · rw [h1]
  · rw [h1, List.filter_append]
    simp [Relationship.hasTuple]
  · rw [h1]
    have hupd := updateRow_of_tuple o f t i w.now rel hrt
    have hkeep : ∀ x ∈ w.relationships, x.hasTuple o f t i = false →
        updateRow rel.ID o f t i w.now x = x := by
      intro x hx hxt
      apply updateRow_of_ne
      intro hid
      have hxr : x = rel := eq_of_ID_eq _ hwf.1 x rel hx hrel hid
      rw [hxr, hrt] at hxt
      cases hxt
    rw [List.filter_map]
    have hcongr : w.relationships.filter
        ((fun r => !(r.hasTuple o f t i)) ∘ updateRow rel.ID o f t i w.now)
        = w.relationships.filter (fun r => !(r.hasTuple o f t i)) := by
      apply List.filter_congr
      intro x hx
      cases hxt : x.hasTuple o f t i with
      | false => simp only [Function.comp, hkeep x hx hxt, hxt]
      | true =>
          simp only [Function.comp, updateRow, Relationship.hasTuple]
          split <;> simp_all [Relationship.hasTuple]
    rw [hcongr]
    conv_rhs => rw [← List.map_id (w.relationships.filter (fun r => !(r.hasTuple o f t i)))]
    apply List.map_congr_left
    intro x hx
    rw [List.mem_filter] at hx
    rw [hkeep x hx.1 (by simpa using hx.2)]
    rfl

/-- C8 (counterexample): the two tuples differ in the onion, the second onion
has 256 characters; after `InsertRelationship` on the first, the call on the
second returns the error of `Exec` and the store still holds the first row only:
no row is created for the second tuple. -/
theorem InsertRelationship_distinct_counterexample :
    (("a.onion", "b.onion", "pgp", "k1") : String × String × String × String)
        ≠ (longOnion, "b.onion", "pgp", "k1")
    ∧ longOnion.length = 256
    ∧ (InsertRelationship ⟨false, false⟩ "a.onion" "b.onion" "pgp" "k1"
        (World.empty (fun n => (n : Int)))).2.relationships
        = [⟨1, "a.onion", "b.onion", "pgp", "k1", 0, 1⟩]
    ∧ (InsertRelationship ⟨false, false⟩ longOnion "b.onion" "pgp" "k1"
        (InsertRelationship ⟨false, false⟩ "a.onion" "b.onion" "pgp" "k1"
          (World.empty (fun n => (n : Int)))).2).1 = .error .dataTooLong
    ∧ (InsertRelationship ⟨false, false⟩ longOnion "b.onion" "pgp" "k1"
        (InsertRelationship ⟨false, false⟩ "a.onion" "b.onion" "pgp" "k1"
          (World.empty (fun n => (n : Int)))).2).2.relationships
        = [⟨1, "a.onion", "b.onion", "pgp", "k1", 0, 1⟩] := by
  have hlen := longOnion_length
  have hlong := longOnion_too_long "b.onion" "pgp" "k1"
  have hne : (("a.onion", "b.onion", "pgp", "k1") : String × String × String × String)
      ≠ (longOnion, "b.onion", "pgp", "k1") := by
    intro h
    have h2 : ("a.onion" : String).length = longOnion.length :=
      congrArg (fun p : String × String × String × String => p.1.length) h
    rw [hlen] at h2
    exact absurd h2 (by decide)
  have hrows : (InsertRelationship ⟨false, false⟩ "a.onion" "b.onion" "pgp" "k1"
      (World.empty (fun n => (n : Int)))).2.relationships
      = [⟨1, "a.onion", "b.onion", "pgp", "k1", 0, 1⟩] := rfl
  have habs : ∀ r ∈ (InsertRelationship ⟨false, false⟩ "a.onion" "b.onion" "pgp" "k1"
      (World.empty (fun n => (n : Int)))).2.relationships,
      r.hasTuple longOnion "b.onion" "pgp" "k1" = false := by
    intro r hr
    rw [hrows, List.mem_singleton] at hr
    subst hr
    exact hasTuple_exclusive _ _ _ _ _ _ _ _ hne _ rfl
  have hstep := InsertRelationship_absent ⟨false, false⟩ longOnion
    "b.onion" "pgp" "k1" _ habs
  have hres := InsertNewRelationship_too_long longOnion
    "b.onion" "pgp" "k1" (InsertRelationship ⟨false, false⟩ "a.onion" "b.onion" "pgp" "k1"
      (World.empty (fun n => (n : Int)))).2 hlong
  refine ⟨hne, hlen, hrows, ?_, ?_⟩
  · rw [hstep, hres]
  · rw [hstep, hres]
    exact hrows

/-- C8 (amended): for two tuples that fit the `VARCHAR(255)` columns and differ
in some field, and a store with distinct identifiers, after `InsertRelationship`
on the first and then on the second there are a row with the first tuple and a
row with the second, with different identifiers; the second call changes, adds
and removes no row whose tuple is not the second one, so every row with the
first tuple is exactly as the first call left it; and when the store held no row
with the second tuple, the second call appends one new row with that tuple, both
timestamps read during that call and an identifier no earlier row has, which it
returns. -/
theorem InsertRelationship_distinct_tuples (c : Conn) (o f t i o2 f2 t2 i2 : String) (w : World)
    (hwf : w.WF) (hne : (o, f, t, i) ≠ (o2, f2, t2, i2))
    (hfit : fitsRelationship o f t i = true) (hfit2 : fitsRelationship o2 f2 t2 i2 = true) :
    (∃ r1 ∈ (InsertRelationship c o2 f2 t2 i2 (InsertRelationship c o f t i w).2).2.relationships,
      ∃ r2 ∈ (InsertRelationship c o2 f2 t2 i2 (InsertRelationship c o f t i w).2).2.relationships,
        r1 ∈ (InsertRelationship c o f t i w).2.relationships
        ∧ r1.hasTuple o f t i = true ∧ r2.hasTuple o2 f2 t2 i2 = true ∧ r1.ID ≠ r2.ID)
    ∧ (InsertRelationship c o2 f2 t2 i2 (InsertRelationship c o f t i w).2).2.relationships.filter
          (fun r => !(r.hasTuple o2 f2 t2 i2))
        = (InsertRelationship c o f t i w).2.relationships.filter
          (fun r => !(r.hasTuple o2 f2 t2 i2))
    ∧ (InsertRelationship c o2 f2 t2 i2 (InsertRelationship c o f t i w).2).2.relationships.filter
          (fun r => r.hasTuple o f t i)
        = (InsertRelationship c o f t i w).2.relationships.filter (fun r => r.hasTuple o f t i)
    ∧ ((∀ r ∈ w.relationships, r.hasTuple o2 f2 t2 i2 = false) →
        ∃ r2 : Relationship,
          (InsertRelationship c o2 f2 t2 i2 (InsertRelationship c o f t i w).2).2.relationships
            = (InsertRelationship c o f t i w).2.relationships ++ [r2]
          ∧ r2.hasTuple o2 f2 t2 i2 = true
          ∧ (∀ r ∈ (InsertRelationship c o f t i w).2.relationships, r.ID ≠ r2.ID)
          ∧ (InsertRelationship c o2 f2 t2 i2 (InsertRelationship c o f t i w).2).1 = .ok r2.ID
          ∧ r2.FirstSeen = (InsertRelationship c o f t i w).2.now
          ∧ r2.LastSeen = (InsertRelationship c o f t i w).2.advance.now) := by
  have hwf1 := InsertRelationship_WF c o f t i w hwf
  have hwf2 := InsertRelationship_WF c o2 f2 t2 i2 _ hwf1
  have hothers := InsertRelationship_others c o2 f2 t2 i2 _ hwf1
  have hfirst : (InsertRelationship c o2 f2 t2 i2
        (InsertRelationship c o f t i w).2).2.relationships.filter (fun r => r.hasTuple o f t i)
      = (InsertRelationship c o f t i w).2.relationships.filter (fun r => r.hasTuple o f t i) := by
    have hsplit : ∀ l : List Relationship, l.filter (fun r => r.hasTuple o f t i)
        = (l.filter (fun r => !(r.hasTuple o2 f2 t2 i2))).filter (fun r => r.hasTuple o f t i) := by
      intro l
      rw [List.filter_filter]
      apply List.filter_congr
      intro x _
      cases hx : x.hasTuple o f t i with
      | false => rfl
      | true => simp [hasTuple_exclusive o f t i o2 f2 t2 i2 hne x hx]
    rw [hsplit, hothers, ← hsplit]
  refine ⟨?_, hothers, hfirst, ?_⟩
  · obtain ⟨r1, hr1, ht1⟩ := InsertRelationship_has_row c o f t i w hfit
    obtain ⟨r2, hr2, ht2⟩ :=
      InsertRelationship_has_row c o2 f2 t2 i2 (InsertRelationship c o f t i w).2 hfit2
    have hr1' : r1 ∈ (InsertRelationship c o2 f2 t2 i2
        (InsertRelationship c o f t i w).2).2.relationships := by
      have : r1 ∈ (InsertRelationship c o2 f2 t2 i2
          (InsertRelationship c o f t i w).2).2.relationships.filter
            (fun r => r.hasTuple o f t i) := by
        rw [hfirst]
        exact List.mem_filter.2 ⟨hr1, ht1⟩
      exact List.mem_of_mem_filter this
    refine ⟨r1, hr1', r2, hr2, hr1, ht1, ht2, ?_⟩
    intro hid
    have heq : r1 = r2 := eq_of_ID_eq _ hwf2.1 r1 r2 hr1' hr2 hid
    have := hasTuple_exclusive o f t i o2 f2 t2 i2 hne r1 ht1
    rw [heq, ht2] at this
    cases this
  · intro habs
    have habs1 := InsertRelationship_keeps_absent c o f t i o2 f2 t2 i2 w hne habs
    have hstep := InsertRelationship_absent c o2 f2 t2 i2 (InsertRelationship c o f t i w).2 habs1
    rw [hstep, InsertNewRelationship_fits o2 f2 t2 i2 _ hfit2]
    refine ⟨_, rfl, by simp [Relationship.hasTuple], ?_, rfl, rfl, rfl⟩
    intro r hr
    have := hwf1.2 r hr
    simp only
    omega

/-- C8 (witness): the two tuples differ in the identifier only and the store
already holds a third tuple. -/
theorem InsertRelationship_distinct_tuples_witness :
    (InsertRelationship ⟨false, false⟩ "a.onion" "b.onion" "pgp" "k2"
        (InsertRelationship ⟨false, false⟩ "a.onion" "b.onion" "pgp" "k1"
          { crawls := [], crawlsNext := 1,
            relationships := [⟨4, "a.onion", "b.onion", "btc", "w1", 0, 0⟩],
            relationshipsNext := 7, clock := fun n => (n : Int),
            tick := 5 }).2).2.relationships.filter
        (fun r => r.hasTuple "a.onion" "b.onion" "pgp" "k1")
      = [⟨7, "a.onion", "b.onion", "pgp", "k1", 5, 6⟩]
    ∧ (InsertRelationship ⟨false, false⟩ "a.onion" "b.onion" "pgp" "k2"
        (InsertRelationship ⟨false, false⟩ "a.onion" "b.onion" "pgp" "k1"
          { crawls := [], crawlsNext := 1,
            relationships := [⟨4, "a.onion", "b.onion", "btc", "w1", 0, 0⟩],
            relationshipsNext := 7, clock := fun n => (n : Int), tick := 5 }).2).2.relationships
      = [⟨4, "a.onion", "b.onion", "btc", "w1", 0, 0⟩, ⟨7, "a.onion", "b.onion", "pgp", "k1", 5, 6⟩,
         ⟨8, "a.onion", "b.onion", "pgp", "k2", 7, 8⟩] :=
  ⟨(InsertRelationship_distinct_tuples ⟨false, false⟩ "a.onion" "b.onion" "pgp" "k1"
      "a.onion" "b.onion" "pgp" "k2"
      { crawls := [], crawlsNext := 1,
        relationships := [⟨4, "a.onion", "b.onion", "btc", "w1", 0, 0⟩],
        relationshipsNext := 7, clock := fun n => (n : Int), tick := 5 }
      (by simp [World.WF]) (by decide) rfl rfl).2.2.1, rfl⟩

/-! ## Claim on the order of the two timestamps -/

theorem InsertNewRelationship_clock (o f t i : String) (w : World) :
    (InsertNewRelationship o f t i w).2.clock = w.clock := by
  rcases InsertNewRelationship_cases o f t i w with ⟨_, h1⟩ | ⟨_, h1⟩ <;> rw [h1]

theorem UpdateRelationship_clock (c : Conn) (id : Nat) (o f t i : String) (w : World) :
    (UpdateRelationship c id o f t i w).2.clock = w.clock := by
  rcases UpdateRelationship_cases c id o f t i w with h1 | ⟨h1, _, _⟩ <;> rw [h1]

theorem Reachable_clock (c : Conn) (clock : Nat → Int) (w : World) (h : Reachable c clock w) :
    w.clock = clock := by
  induction h with
  | empty => rfl
  | insertRelationship o f t i hw ih =>
      rename_i w0
      rcases InsertRelationship_cases c o f t i w0 with h1 | ⟨rel, _, _, h1⟩
      · rw [h1, InsertNewRelationship_clock]
        exact ih
      · rw [h1, UpdateRelationship_clock]
        exact ih
  | insertNewRelationship o f t i _ ih =>
      rw [InsertNewRelationship_clock]
      exact ih
  | updateRelationship id o f t i _ ih =>
      rw [UpdateRelationship_clock]
      exact ih
  | deleteRelationship o f t i _ ih => exact ih

theorem seen_insertNew (o f t i : String) (w : World) (hmono : Monotone w.clock)
    (h : ∀ r ∈ w.relationships, r.FirstSeen ≤ r.LastSeen ∧ r.LastSeen ≤ w.now) :
    ∀ r ∈ (InsertNewRelationship o f t i w).2.relationships,
      r.FirstSeen ≤ r.LastSeen ∧ r.LastSeen ≤ (InsertNewRelationship o f t i w).2.now := by
  have h01 : w.clock w.tick ≤ w.clock (w.tick + 1) := hmono (Nat.le_succ _)
  have h12 : w.clock (w.tick + 1) ≤ w.clock (w.tick + 2) := hmono (Nat.le_succ _)
  rcases InsertNewRelationship_cases o f t i w with ⟨_, h1⟩ | ⟨_, h1⟩
  · rw [h1]
    intro r hr
    rcases List.mem_append.1 hr with hr | hr
    · have := h r hr
      exact ⟨this.1, le_trans this.2 (le_trans h01 h12)⟩
    · rw [List.mem_singleton] at hr
      subst hr
      exact ⟨h01, h12⟩
  · rw [h1]
    intro r hr
    have := h r hr
    exact ⟨this.1, le_trans this.2 (le_trans h01 h12)⟩

theorem seen_update (c : Conn) (id : Nat) (o f t i : String) (w : World)
    (hmono : Monotone w.clock)
    (h : ∀ r ∈ w.relationships, r.FirstSeen ≤ r.LastSeen ∧ r.LastSeen ≤ w.now) :
    ∀ r ∈ (UpdateRelationship c id o f t i w).2.relationships,
      r.FirstSeen ≤ r.LastSeen ∧ r.LastSeen ≤ (UpdateRelationship c id o f t i w).2.now := by
  have h01 : w.clock w.tick ≤ w.clock (w.tick + 1) := hmono (Nat.le_succ _)
  rcases UpdateRelationship_cases c id o f t i w with h1 | ⟨h1, _, _⟩
  · rw [h1]
    intro r hr
    obtain ⟨x, hx, rfl⟩ := List.mem_map.1 hr
    have hx2 := h x hx
    by_cases hid : x.ID = id
    · simp only [updateRow, hid, if_true]
      exact ⟨le_trans hx2.1 hx2.2, h01⟩
    · rw [updateRow_of_ne _ o f t i _ x hid]
      exact ⟨hx2.1, le_trans hx2.2 h01⟩
  · rw [h1]
    intro r hr
    have := h r hr
    exact ⟨this.1, le_trans this.2 h01⟩

theorem Reachable_seen (c : Conn) (clock : Nat → Int) (hmono : Monotone clock) (w : World)
    (h : Reachable c clock w) :
    ∀ r ∈ w.relationships, r.FirstSeen ≤ r.LastSeen ∧ r.LastSeen ≤ w.now := by
  induction h with
  | empty =>
      intro r hr
      cases hr
  | insertRelationship o f t i hw ih =>
      rename_i w0
      have hc : Monotone w0.clock := by
        rw [Reachable_clock c clock w0 hw]
        exact hmono
      rcases InsertRelationship_cases c o f t i w0 with h1 | ⟨rel, _, _, h1⟩
      · rw [h1]
        exact seen_insertNew o f t i w0 hc ih
      · rw [h1]
        exact seen_update c rel.ID o f t i w0 hc ih
  | insertNewRelationship o f t i hw ih =>
      rename_i w0
      have hc : Monotone w0.clock := by
        rw [Reachable_clock c clock w0 hw]
        exact hmono
      exact seen_insertNew o f t i w0 hc ih
  | updateRelationship id o f t i hw ih =>
      rename_i w0
      have hc : Monotone w0.clock := by
        rw [Reachable_clock c clock w0 hw]
        exact hmono
      exact seen_update c id o f t i w0 hc ih
  | deleteRelationship o f t i hw ih =>
      intro r hr
      exact ih r (List.mem_of_mem_filter hr)

/-- C9 (counterexample): the clock `0, 1, 2, ...` is non-decreasing, and
`InsertNewRelationship` on the empty store leaves one row whose `FirstSeen` is 0
and whose `LastSeen` is 1: the two timestamps of a fresh row are two readings. -/
theorem InsertNewRelationship_seen_counterexample :
    Monotone (fun n : Nat => (n : Int))
    ∧ Reachable ⟨false, false⟩ (fun n : Nat => (n : Int))
        (InsertNewRelationship "a.onion" "a.onion" "pgp" "k1"
          (World.empty (fun n : Nat => (n : Int)))).2
    ∧ (InsertNewRelationship "a.onion" "a.onion" "pgp" "k1"
        (World.empty (fun n : Nat => (n : Int)))).2.relationships
        = [⟨1, "a.onion", "a.onion", "pgp", "k1", 0, 1⟩]
    ∧ ¬ ∀ r ∈ (InsertNewRelationship "a.onion" "a.onion" "pgp" "k1"
        (World.empty (fun n : Nat => (n : Int)))).2.relationships, r.FirstSeen = r.LastSeen := by
  refine ⟨fun a b h => Int.ofNat_le.2 h, Reachable.insertNewRelationship _ _ _ _ Reachable.empty,
    rfl, ?_⟩
  intro h
  have := h ⟨1, "a.onion", "a.onion", "pgp", "k1", 0, 1⟩ (List.mem_singleton.2 rfl)
  exact absurd this (by decide)

/-- C9 (amended): under a non-decreasing clock every row of every store reachable
from the empty one by `InsertRelationship`, `InsertNewRelationship`,
`UpdateRelationship` and `DeleteRelationship` has `FirstSeen ≤ LastSeen`; a
freshly inserted row carries two successive clock readings, so that
`FirstSeen ≤ LastSeen`, with equality when the clock does not advance between
them; an update sets `LastSeen` of the row with the given identifier to the
current reading and changes no identifier and no `FirstSeen`.  An insert stores
its row, and an update takes place, whenever the fields fit their columns; a
call that returns an error leaves every row as it was. -/
theorem relationships_seen_order (c : Conn) (clock : Nat → Int) (hmono : Monotone clock)
    (w : World) (hw : Reachable c clock w) :
    (∀ r ∈ w.relationships, r.FirstSeen ≤ r.LastSeen)
    ∧ (∀ o f t i : String,
        (fitsRelationship o f t i = true → ∃ r : Relationship,
          (InsertNewRelationship o f t i w).2.relationships = w.relationships ++ [r]
          ∧ (InsertNewRelationship o f t i w).1 = .ok r.ID
          ∧ r.FirstSeen = clock w.tick ∧ r.LastSeen = clock (w.tick + 1)
          ∧ r.FirstSeen ≤ r.LastSeen
          ∧ (clock w.tick = clock (w.tick + 1) → r.FirstSeen = r.LastSeen))
        ∧ (∀ e, (InsertNewRelationship o f t i w).1 = .error e →
            (InsertNewRelationship o f t i w).2.relationships = w.relationships))
    ∧ (∀ (id : Nat) (o f t i : String),
        (UpdateRelationship c id o f t i w).2.relationships.map (fun r => (r.ID, r.FirstSeen))
          = w.relationships.map (fun r => (r.ID, r.FirstSeen))
        ∧ (∀ n, (UpdateRelationship c id o f t i w).1 = .ok n →
            ∀ r ∈ (UpdateRelationship c id o f t i w).2.relationships,
              r.ID = id → r.LastSeen = clock w.tick)
        ∧ (∀ r ∈ (UpdateRelationship c id o f t i w).2.relationships,
            r.ID ≠ id → r ∈ w.relationships)
        ∧ (fitsRelationship o f t i = true →
            ∃ n, (UpdateRelationship c id o f t i w).1 = .ok n)
        ∧ (∀ e, (UpdateRelationship c id o f t i w).1 = .error e →
            (UpdateRelationship c id o f t i w).2.relationships = w.relationships)) := by
  have hclock := Reachable_clock c clock w hw
  refine ⟨fun r hr => (Reachable_seen c clock hmono w hw r hr).1, ?_, ?_⟩
  · intro o f t i
    refine ⟨?_, ?_⟩
    · intro hfit
      rw [InsertNewRelationship_fits o f t i w hfit]
      refine ⟨_, rfl, rfl, ?_, ?_, ?_, ?_⟩
      · show w.clock w.tick = clock w.tick
        rw [hclock]
      · show w.clock (w.tick + 1) = clock (w.tick + 1)
        rw [hclock]
      · show w.clock w.tick ≤ w.clock (w.tick + 1)
        rw [hclock]
        exact hmono (Nat.le_succ _)
      · intro heq
        show w.clock w.tick = w.clock (w.tick + 1)
        rw [hclock]
        exact heq
    · intro e he
      rcases InsertNewRelationship_cases o f t i w with ⟨_, h1⟩ | ⟨_, h1⟩
      · rw [h1] at he
        cases he
      · rw [h1]
  · intro id o f t i
    rcases UpdateRelationship_cases c id o f t i w with h1 | ⟨h1, hnot, _⟩
    · rw [h1]
      refine ⟨?_, ?_, ?_, fun _ => ⟨_, rfl⟩, ?_⟩
      · show (w.relationships.map (updateRow id o f t i w.now)).map
          (fun r => (r.ID, r.FirstSeen)) = _
        rw [List.map_map]
        apply List.map_congr_left
        intro r _
        simp only [Function.comp, updateRow_ID, updateRow_FirstSeen]
      · intro n _ r hr hid
        obtain ⟨x, _, rfl⟩ := List.mem_map.1 hr
        rw [updateRow_ID] at hid
        simp only [updateRow, hid, if_true]
        show w.clock w.tick = clock w.tick
        rw [hclock]
      · intro r hr hid
        obtain ⟨x, hx, rfl⟩ := List.mem_map.1 hr
        rw [updateRow_ID] at hid
        rw [updateRow_of_ne _ o f t i _ x hid]
        exact hx
      · intro e he
        cases he
    · rw [h1]
      refine ⟨rfl, ?_, fun r hr _ => hr, ?_, fun _ _ => rfl⟩
      · intro n hn
        cases hn
      · intro hfit
        rw [hfit] at hnot
        cases hnot

/-- C9 (witness): the clock `0, 1, 2, ...` and the store
reached by observing one tuple twice. -/
theorem relationships_seen_order_witness :
    Monotone (fun n : Nat => (n : Int))
    ∧ (InsertRelationship ⟨false, false⟩ "a.onion" "a.onion" "pgp" "k1"
        (InsertRelationship ⟨false, false⟩ "a.onion" "a.onion" "pgp" "k1"
          (World.empty (fun n : Nat => (n : Int)))).2).2.relationships.all
        (fun r => decide (r.FirstSeen ≤ r.LastSeen)) = true :=
  ⟨fun _ _ h => Int.ofNat_le.2 h,
   List.all_eq_true.2 (fun r hr => decide_eq_true
    ((relationships_seen_order ⟨false, false⟩ (fun n : Nat => (n : Int))
      (fun _ _ h => Int.ofNat_le.2 h) _
      (Reachable.insertRelationship _ _ _ _
        (Reachable.insertRelationship _ _ _ _ Reachable.empty))).1 r hr))⟩

/-! ## Claim on the lookup by identifier -/

/-- C5: on a store with distinct identifiers, whenever
`GetRelationshipsWithIdentifier(x)` returns rows, and it does on every connection
that delivers timestamps as text, the rows returned are the stored rows whose
`Type`, `From` or `Identifier` is `x`, each once and no identifier twice, and no
other row: a row none of whose three fields is `x` is not returned, whatever its
`Onion`. -/
theorem GetRelationshipsWithIdentifier_union (c : Conn) (w : World) (hwf : w.WF) (x : String) :
    (c.parseTime = false → ∃ rs, GetRelationshipsWithIdentifier c w x = .ok rs)
    ∧ ∀ rs, GetRelationshipsWithIdentifier c w x = .ok rs →
        (∀ r, r ∈ rs ↔ r ∈ w.relationships ∧ (r.Type_ = x ∨ r.From = x ∨ r.Identifier = x))
        ∧ (rs.map (·.ID)).Nodup
        ∧ (∀ r ∈ w.relationships, (r.Type_ = x ∨ r.From = x ∨ r.Identifier = x) →
            rs.count r = 1)
        ∧ (∀ r ∈ w.relationships, r.Type_ ≠ x → r.From ≠ x → r.Identifier ≠ x → r ∉ rs) := by
  refine ⟨fun hp => ⟨_, scanRows_id _ _ (fun r _ => scanRelationshipBytes_text c hp r)⟩, ?_⟩
  intro rs hrs
  have heq := scanRows_bytes_ok c _ rs hrs
  have hmem : ∀ r, r ∈ rs ↔
      r ∈ w.relationships ∧ (r.Type_ = x ∨ r.From = x ∨ r.Identifier = x) := by
    intro r
    rw [heq, List.mem_filter]
    simp only [Bool.or_eq_true, beq_iff_eq, or_assoc]
  have hsub : rs.Sublist w.relationships := by
    rw [heq]
    exact List.filter_sublist _
  have hnd : (rs.map (·.ID)).Nodup := List.Nodup.sublist (hsub.map _) hwf.1
  refine ⟨hmem, hnd, ?_, ?_⟩
  · intro r hr hx
    exact List.count_eq_one_of_mem (List.Nodup.of_map _ hnd) ((hmem r).2 ⟨hr, hx⟩)
  · intro r _ h1 h2 h3 hin
    rcases ((hmem r).1 hin).2 with h | h | h
    · exact h1 h
    · exact h2 h
    · exact h3 h

/-- C5 (witness): the first row has `x` in
two of the three fields, the second has it as `Onion` only. -/
theorem GetRelationshipsWithIdentifier_union_witness :
    ∃ rs, GetRelationshipsWithIdentifier ⟨false, false⟩
        { crawls := [], crawlsNext := 1,
          relationships := [⟨1, "a.onion", "x", "pgp", "x", 0, 1⟩,
                            ⟨2, "x", "b.onion", "pgp", "k1", 2, 3⟩],
          relationshipsNext := 3, clock := fun n => (n : Int), tick := 4 } "x" = .ok rs
      ∧ rs.map (·.ID) = [1] := by
  obtain ⟨rs, hrs⟩ := (GetRelationshipsWithIdentifier_union ⟨false, false⟩
    { crawls := [], crawlsNext := 1,
      relationships := [⟨1, "a.onion", "x", "pgp", "x", 0, 1⟩,
                        ⟨2, "x", "b.onion", "pgp", "k1", 2, 3⟩],
      relationshipsNext := 3, clock := fun n => (n : Int), tick := 4 }
    (by simp [World.WF]) "x").1 rfl
  refine ⟨rs, hrs, ?_⟩
  have h2 : GetRelationshipsWithIdentifier ⟨false, false⟩
      { crawls := [], crawlsNext := 1,
        relationships := [⟨1, "a.onion", "x", "pgp", "x", 0, 1⟩,
                          ⟨2, "x", "b.onion", "pgp", "k1", 2, 3⟩],
        relationshipsNext := 3, clock := fun n => (n : Int), tick := 4 } "x"
      = .ok [⟨1, "a.onion", "x", "pgp", "x", 0, 1⟩] := rfl
  rw [h2] at hrs
  rw [← Except.ok.inj hrs]
  rfl

/-! ## Claim on the validator -/

theorem inClass_byte (c b : Byte) : inClass [(c, c)] b = true ↔ b = c := by
  simp only [inClass, List.any_cons, List.any_nil, Bool.or_false, Bool.and_eq_true,
    decide_eq_true_eq]
  exact ⟨fun h => le_antisymm h.2 h.1, fun h => h ▸ ⟨le_refl _, le_refl _⟩⟩

theorem inClass_base32 (b : Byte) :
    inClass base32 b = true ↔ (97 ≤ b ∧ b ≤ 122) ∨ (50 ≤ b ∧ b ≤ 55) := by
  simp [inClass, base32]

theorem mem_ends_cls (ranges : List (Byte × Byte)) (pos : Nat) (rest : List Byte)
    (x : Nat × List Byte) :
    x ∈ (Re.cls ranges).ends (pos, rest)
      ↔ ∃ b, inClass ranges b = true ∧ rest = b :: x.2 ∧ x.1 = pos + 1 := by
  cases rest with
  | nil => simp [Re.ends]
  | cons b tl =>
      by_cases hb : inClass ranges b = true
      · simp only [Re.ends, hb, if_true, List.mem_singleton, List.cons.injEq]
        constructor
        · rintro rfl
          exact ⟨b, hb, ⟨rfl, rfl⟩, rfl⟩
        · rintro ⟨b2, _, ⟨_, h2⟩, h3⟩
          exact Prod.ext h3 h2.symm
      · simp only [Re.ends, hb, List.cons.injEq]
        constructor
        · intro h
          cases h
        · rintro ⟨b2, h1, ⟨h2, _⟩, _⟩
          exact absurd (h2 ▸ h1) hb

theorem mem_ends_byte (c : Byte) (pos : Nat) (rest : List Byte) (x : Nat × List Byte) :
    x ∈ (Re.byte c).ends (pos, rest) ↔ rest = c :: x.2 ∧ x.1 = pos + 1 := by
  unfold Re.byte
  rw [mem_ends_cls]
  constructor
  · rintro ⟨b, hb, h1, h2⟩
    rw [inClass_byte] at hb
    exact ⟨hb ▸ h1, h2⟩
  · rintro ⟨h1, h2⟩
    exact ⟨c, (inClass_byte c c).2 rfl, h1, h2⟩

theorem mem_ends_seq (a b : Re) (st x : Nat × List Byte) :
    x ∈ (Re.seq a b).ends st ↔ ∃ st1 ∈ a.ends st, x ∈ b.ends st1 := by
  simp only [Re.ends, List.mem_flatMap]

theorem mem_ends_rep_cls (ranges : List (Byte × Byte)) (n : Nat) :
    ∀ (pos : Nat) (rest : List Byte) (x : Nat × List Byte),
      x ∈ (Re.rep n (.cls ranges)).ends (pos, rest)
        ↔ ∃ l : List Byte, l.length = n ∧ (∀ b ∈ l, inClass ranges b = true)
            ∧ rest = l ++ x.2 ∧ x.1 = pos + n := by
  induction n with
  | zero =>
      intro pos rest x
      simp only [Re.ends, Function.iterate_zero, id_eq, List.mem_singleton, List.length_eq_zero]
      constructor
      · rintro rfl
        exact ⟨[], rfl, by simp, rfl, rfl⟩
      · rintro ⟨l, rfl, _, h2, h3⟩
        exact Prod.ext h3 h2.symm
  | succ n ih =>
      intro pos rest x
      have hunfold : (Re.rep (n + 1) (.cls ranges)).ends (pos, rest)
          = ((Re.rep n (.cls ranges)).ends (pos, rest)).flatMap
              (fun st1 => (Re.cls ranges).ends st1) := by
        simp only [Re.ends, Function.iterate_succ_apply']
      rw [hunfold, List.mem_flatMap]
      constructor
      · rintro ⟨st1, hst1, hx⟩
        obtain ⟨l, hl, hall, hrest, hpos⟩ := (ih pos rest st1).1 hst1
        obtain ⟨b, hb, h1, h2⟩ := (mem_ends_cls ranges st1.1 st1.2 x).1 hx
        refine ⟨l ++ [b], by simp [hl], ?_, ?_, ?_⟩
        · intro y hy
          rcases List.mem_append.1 hy with hy | hy
          · exact hall y hy
          · rw [List.mem_singleton] at hy
            exact hy ▸ hb
        · rw [hrest, h1]
          simp
        · rw [h2, hpos]
          omega
      · rintro ⟨l, hl, hall, hrest, hpos⟩
        obtain ⟨l0, b, rfl⟩ : ∃ l0 b, l = l0 ++ [b] := by
          rcases List.eq_nil_or_concat l with h | ⟨l0, b, h⟩
          · rw [h] at hl
            cases hl
          · exact ⟨l0, b, by rw [h, List.concat_eq_append]⟩
        have hl0 : l0.length = n := by
          simp at hl
          exact hl
        refine ⟨(pos + n, b :: x.2), (ih pos rest _).2 ⟨l0, hl0, ?_, ?_, rfl⟩, ?_⟩
        · intro y hy
          exact hall y (List.mem_append_left _ hy)
        · rw [hrest]
          simp
        · rw [mem_ends_cls]
          exact ⟨b, hall b (List.mem_append_right _ (List.mem_singleton.2 rfl)), rfl, by
            rw [hpos]
            omega⟩

theorem mem_ends_eol (pos : Nat) (rest : List Byte) (x : Nat × List Byte) :
    x ∈ Re.eol.ends (pos, rest) ↔ rest = [] ∧ x = (pos, []) := by
  cases rest with
  | nil => simp [Re.ends]
  | cons b tl => simp [Re.ends]

theorem mem_ends_byte_seq (c : Byte) (r : Re) (pos : Nat) (rest : List Byte)
    (x : Nat × List Byte) :
    x ∈ (Re.seq (Re.byte c) r).ends (pos, rest)
      ↔ ∃ tl, rest = c :: tl ∧ x ∈ r.ends (pos + 1, tl) := by
  rw [mem_ends_seq]
  constructor
  · rintro ⟨st1, h1, h2⟩
    rw [mem_ends_byte] at h1
    refine ⟨st1.2, h1.1, ?_⟩
    rw [← h1.2]
    exact h2
  · rintro ⟨tl, h1, h2⟩
    exact ⟨(pos + 1, tl), (mem_ends_byte c pos rest _).2 ⟨h1, rfl⟩, h2⟩

theorem mem_ends_dotOnion (pos : Nat) (rest : List Byte) (x : Nat × List Byte) :
    x ∈ (Re.seq (.byte 46) (.seq (.byte 111) (.seq (.byte 110) (.seq (.byte 105)
          (.seq (.byte 111) (.seq (.byte 110) .eol)))))).ends (pos, rest)
      ↔ rest = dotOnion ∧ x = (pos + 6, []) := by
  simp only [mem_ends_byte_seq, mem_ends_eol, dotOnion]
  constructor
  · rintro ⟨t1, rfl, t2, rfl, t3, rfl, t4, rfl, t5, rfl, t6, rfl, rfl, rfl⟩
    exact ⟨rfl, rfl⟩
  · rintro ⟨rfl, rfl⟩
    exact ⟨_, rfl, _, rfl, _, rfl, _, rfl, _, rfl, _, rfl, rfl, rfl⟩

theorem mem_ends_label (pos : Nat) (rest : List Byte) (x : Nat × List Byte) :
    x ∈ (Re.seq (.rep 56 (.cls base32))
          (.seq (.byte 46) (.seq (.byte 111) (.seq (.byte 110) (.seq (.byte 105)
            (.seq (.byte 111) (.seq (.byte 110) .eol))))))).ends (pos, rest)
      ↔ ∃ l : List Byte, l.length = 56 ∧ (∀ b ∈ l, inClass base32 b = true)
          ∧ rest = l ++ dotOnion ∧ x = (pos + 62, []) := by
  rw [mem_ends_seq]
  constructor
  · rintro ⟨st1, h1, h2⟩
    obtain ⟨l, hl, hall, hrest, hpos⟩ := (mem_ends_rep_cls base32 56 pos rest st1).1 h1
    obtain ⟨h3, h4⟩ := (mem_ends_dotOnion st1.1 st1.2 x).1 h2
    refine ⟨l, hl, hall, by rw [hrest, h3], ?_⟩
    rw [h4, hpos]
  · rintro ⟨l, hl, hall, hrest, hx⟩
    refine ⟨(pos + 56, dotOnion), (mem_ends_rep_cls base32 56 pos rest _).2
      ⟨l, hl, hall, hrest, rfl⟩, ?_⟩
    rw [mem_ends_dotOnion]
    exact ⟨rfl, hx⟩

theorem mem_ends_anchor (pos : Nat) (rest : List Byte) (x : Nat × List Byte) :
    x ∈ (Re.alt .bol (.byte 46)).ends (pos, rest)
      ↔ (pos = 0 ∧ x = (pos, rest)) ∨ (rest = 46 :: x.2 ∧ x.1 = pos + 1) := by
  have hbol : x ∈ Re.bol.ends (pos, rest) ↔ (pos = 0 ∧ x = (pos, rest)) := by
    by_cases h : pos = 0 <;> simp [Re.ends, h]
  have hunfold : (Re.alt .bol (.byte 46)).ends (pos, rest)
      = Re.bol.ends (pos, rest) ++ (Re.byte 46).ends (pos, rest) := by
    simp only [Re.ends]
  rw [hunfold, List.mem_append, hbol, mem_ends_byte]

theorem ends_onionPattern (pos : Nat) (rest : List Byte) :
    onionPattern.ends (pos, rest) ≠ []
      ↔ ∃ l : List Byte, l.length = 56 ∧ (∀ b ∈ l, inClass base32 b = true)
          ∧ ((pos = 0 ∧ rest = l ++ dotOnion) ∨ rest = 46 :: (l ++ dotOnion)) := by
  unfold onionPattern
  constructor
  · intro hne
    obtain ⟨x, hx⟩ := List.exists_mem_of_ne_nil _ hne
    rw [mem_ends_seq] at hx
    obtain ⟨st1, h1, h2⟩ := hx
    rw [mem_ends_anchor] at h1
    obtain ⟨l, hl, hall, hrest, _⟩ := (mem_ends_label st1.1 st1.2 x).1 h2
    refine ⟨l, hl, hall, ?_⟩
    rcases h1 with ⟨hp, hst⟩ | ⟨hr, _⟩
    · left
      rw [hst] at hrest
      exact ⟨hp, hrest⟩
    · right
      rw [hr, hrest]
  · rintro ⟨l, hl, hall, h⟩
    rcases h with ⟨hp, hr⟩ | hr
    · have hmem := (mem_ends_seq (Re.alt .bol (.byte 46)) _ (pos, rest) (pos + 62, [])).2
        ⟨(pos, rest), (mem_ends_anchor pos rest _).2 (Or.inl ⟨hp, rfl⟩),
          (mem_ends_label pos rest (pos + 62, [])).2 ⟨l, hl, hall, hr, rfl⟩⟩
      exact List.ne_nil_of_mem hmem
    · have hmem := (mem_ends_seq (Re.alt .bol (.byte 46)) _ (pos, rest) (pos + 1 + 62, [])).2
        ⟨(pos + 1, l ++ dotOnion), (mem_ends_anchor pos rest _).2 (Or.inr ⟨hr, rfl⟩),
          (mem_ends_label (pos + 1) (l ++ dotOnion) (pos + 1 + 62, [])).2
            ⟨l, hl, hall, rfl, rfl⟩⟩
      exact List.ne_nil_of_mem hmem

theorem search_iff (re : Re) (s : List Byte) :
    ∀ pos : Nat, re.search pos s = true
      ↔ ∃ pre rest, s = pre ++ rest ∧ re.ends (pos + pre.length, rest) ≠ [] := by
  induction s with
  | nil =>
      intro pos
      simp only [Re.search, Bool.not_eq_true', List.isEmpty_eq_false]
      constructor
      · intro h
        exact ⟨[], [], rfl, h⟩
      · rintro ⟨pre, rest, h, hne⟩
        obtain ⟨rfl, rfl⟩ := List.append_eq_nil.1 h.symm
        exact hne
  | cons b tl ih =>
      intro pos
      simp only [Re.search, Bool.or_eq_true, Bool.not_eq_true', List.isEmpty_eq_false]
      rw [ih]
      constructor
      · rintro (h | ⟨pre, rest, h, hne⟩)
        · exact ⟨[], b :: tl, rfl, h⟩
        · refine ⟨b :: pre, rest, by rw [h]; rfl, ?_⟩
          rw [List.length_cons, ← Nat.add_assoc, Nat.add_right_comm]
          exact hne
      · rintro ⟨pre, rest, h, hne⟩
        cases pre with
        | nil =>
            left
            rw [List.nil_append] at h
            rw [h]
            exact hne
        | cons a pre =>
            right
            rw [List.cons_append, List.cons.injEq] at h
            refine ⟨pre, rest, h.2, ?_⟩
            rw [List.length_cons, ← Nat.add_assoc, Nat.add_right_comm] at hne
            exact hne

theorem MatchString_onionPattern (s : List Byte) :
    MatchString onionPattern s = true
      ↔ ∃ p l : List Byte, s = p ++ l ++ dotOnion ∧ l.length = 56
          ∧ (∀ b ∈ l, (97 ≤ b ∧ b ≤ 122) ∨ (50 ≤ b ∧ b ≤ 55))
          ∧ (p = [] ∨ ∃ q, p = q ++ [46]) := by
  unfold MatchString
  rw [search_iff]
  constructor
  · rintro ⟨pre, rest, hs, hne⟩
    obtain ⟨l, hl, hall, h⟩ := (ends_onionPattern _ _).1 hne
    have hall2 : ∀ b ∈ l, (97 ≤ b ∧ b ≤ 122) ∨ (50 ≤ b ∧ b ≤ 55) :=
      fun b hb => (inClass_base32 b).1 (hall b hb)
    rcases h with ⟨hp, hr⟩ | hr
    · have hpre : pre = [] := List.length_eq_zero.1 (by omega)
      refine ⟨[], l, ?_, hl, hall2, Or.inl rfl⟩
      rw [hs, hpre, hr]
      rfl
    · refine ⟨pre ++ [46], l, ?_, hl, hall2, Or.inr ⟨pre, rfl⟩⟩
      rw [hs, hr]
      simp
  · rintro ⟨p, l, hs, hl, hall, hp⟩
    have hall2 : ∀ b ∈ l, inClass base32 b = true :=
      fun b hb => (inClass_base32 b).2 (hall b hb)
    rcases hp with rfl | ⟨q, rfl⟩
    · refine ⟨[], s, rfl, (ends_onionPattern _ _).2 ⟨l, hl, hall2, Or.inl ⟨rfl, ?_⟩⟩⟩
      rw [hs]
      simp
    · refine ⟨q, 46 :: (l ++ dotOnion), ?_, (ends_onionPattern _ _).2 ⟨l, hl, hall2, Or.inr rfl⟩⟩
      rw [hs]
      simp

/-- C10: `IsOnion(s)` holds exactly when `s` is `p ++ l ++ ".onion"` with `l` of
56 bytes, each in `a-z` or `2-7`, and `p` empty or ending in a dot.  Hence an
accepted string has at least 62 bytes, the guard on the length and the suffix
never changes the result of the match, every string shorter than 62 bytes is
rejected and so is every label of 16 bytes followed by `.onion`; a label of 56
letters `a` followed by `.onion` is accepted. -/
theorem IsOnion_iff :
    (∀ s : List Byte, IsOnion s = true
      ↔ ∃ p l : List Byte, s = p ++ l ++ dotOnion ∧ l.length = 56
          ∧ (∀ b ∈ l, (97 ≤ b ∧ b ≤ 122) ∨ (50 ≤ b ∧ b ≤ 55))
          ∧ (p = [] ∨ ∃ q, p = q ++ [46]))
    ∧ (∀ s : List Byte, IsOnion s = true → 62 ≤ s.length)
    ∧ (∀ s : List Byte, IsOnion s = MatchString onionPattern s)
    ∧ (∀ s : List Byte, s.length < 62 → IsOnion s = false)
    ∧ (∀ l : List Byte, l.length = 16 → (l ++ dotOnion).length = 22
        ∧ IsOnion (l ++ dotOnion) = false)
    ∧ IsOnion (List.replicate 56 97 ++ dotOnion) = true
    ∧ IsOnion (List.replicate 16 97 ++ dotOnion) = false := by
  have hlen : ∀ s : List Byte, MatchString onionPattern s = true →
      62 ≤ s.length ∧ HasSuffix s dotOnion = true := by
    intro s h
    obtain ⟨p, l, hs, hl, _, _⟩ := (MatchString_onionPattern s).1 h
    constructor
    · rw [hs]
      simp [hl, dotOnion]
    · unfold HasSuffix
      rw [List.isSuffixOf_iff_suffix, hs]
      exact List.suffix_append _ _
  have hguard : ∀ s : List Byte, IsOnion s = MatchString onionPattern s := by
    intro s
    unfold IsOnion
    cases hm : MatchString onionPattern s with
    | false => simp
    | true =>
        obtain ⟨h1, h2⟩ := hlen s hm
        have h22 : s.length ≥ 22 := by omega
        simp [h22, h2]
  have h62 : ∀ s : List Byte, IsOnion s = true → 62 ≤ s.length := by
    intro s h
    rw [hguard] at h
    exact (hlen s h).1
  have hshort : ∀ s : List Byte, s.length < 62 → IsOnion s = false := by
    intro s hs
    cases h : IsOnion s with
    | false => rfl
    | true =>
        have := h62 s h
        omega
  refine ⟨?_, h62, hguard, hshort, ?_, by decide, by decide⟩
  · intro s
    rw [hguard]
    exact MatchString_onionPattern s
  · intro l hl
    have hlen2 : (l ++ dotOnion).length = 22 := by simp [hl, dotOnion]
    exact ⟨hlen2, hshort _ (by omega)⟩

end OnionScan
